import Mathlib

/-!
# Landlord: sweep scheduler and eviction orchestration

A shallow embedding of `pkg/landlord/landlord.go`, `pkg/landlord/tick.go` and
`pkg/errors/errors.go`, followed by the properties proved about it.

Conventions of the embedding.

* A Go `string` is a Lean `String`; the scanning functions of package `strings`
  work on its list of characters.
* A Go `int` is a Lean `Int`; arithmetic that can overflow is wrapped to 64 bits
  with `wrapInt` (the width of `int` on 64-bit platforms).
* A Go `error` is `Option GoError`, `none` being the nil error.
* An operation that ends in a run-time panic, or that leaves the modelled
  fragment of package `fmt`, yields `Outcome.fault`.
* Side effects (logger, random source, lister, goroutines, sleeping, the
  eviction API) are recorded, in program order, in a list of `Effect`s.
-/

namespace LandlordModel

/-! ## Go values -/

/-- Wrap-around of a mathematical integer to the signed 64-bit `int`. -/
def wrapInt (x : Int) : Int :=
  (x + 9223372036854775808) % 18446744073709551616 - 9223372036854775808

/-- Membership in the range of the 64-bit `int`. -/
def IsGoInt (x : Int) : Prop :=
  -9223372036854775808 ≤ x ∧ x < 9223372036854775808

/-- Go error values: `errors.New` builds an `errorString`; `fmt.Errorf` with one
`%w` operand builds a `wrapError`. An `errorString` also stands for any foreign
error value that has a message and no `Unwrap`. -/
inductive GoError where
  | errorString (s : String)
  | wrapError (msg : String) (err : GoError)
  deriving DecidableEq, Repr

/-- The method `Error()`. -/
def GoError.Error : GoError → String
  | .errorString s => s
  | .wrapError msg _ => msg

/-- The function `errors.Unwrap` on a non-nil error. -/
def GoError.Unwrap : GoError → Option GoError
  | .errorString _ => none
  | .wrapError _ err => some err

/-- The function `Unwrap` of `pkg/errors` (nil in, nil out). -/
def Unwrap (err : Option GoError) : Option GoError :=
  match err with
  | none => none
  | some e => e.Unwrap

/-- The function `New` of `pkg/errors`. -/
def errorsNew (text : String) : Option GoError :=
  some (.errorString text)

/-- Operands of a formatting call (`...interface{}`): the dynamic types that
occur in this repository, and `other` for a value of any other type. -/
inductive GoValue where
  | int (n : Int)
  | str (s : String)
  | err (e : GoError)
  | nil
  | other (tag : String)
  deriving DecidableEq, Repr

/-- Result of running a piece of Go code: a value, or a fault (a run-time panic
or a step outside the modelled fragment). -/
inductive Outcome (α : Type) where
  | ok (a : α)
  | fault (why : String)
  deriving DecidableEq, Repr

/-- Mapping over the result of a run. -/
def Outcome.map {α β : Type} (f : α → β) : Outcome α → Outcome β
  | .ok a => .ok (f a)
  | .fault why => .fault why

/-! ## Package `fmt`

The scanner of `doPrintf` is modelled in full: flags, explicit operand indices
`[n]`, width and precision (numbers or `*`), and the verb. What a directive
prints is computed here for `%%`, for a missing operand, and for the plain verbs
`%v`, `%d`, `%s`, `%w` on operands of type int, string, error and nil; for every
other directive and operand the text is given by `Fmt`, a parameter. -/

/-- The part of package `fmt` whose output is taken as given. `directive text
stars good arg` is what a directive prints, as a function of all it depends on:
its `text` (the characters after `%`, verb included), the operands read for `*`
(`none` when none was left), whether its operand index is good, and the operand
of the verb (`none` when none is taken or none is left). `extra` is the
`%!(EXTRA ...)` report on the operands left over. -/
structure Fmt where
  directive : List Char → List (Option GoValue) → Bool → Option GoValue → String
  extra : List GoValue → String

/-- Printer state of `fmt` (`pp`): the output buffer, the index of the next
operand, the operand indices printed with `%w`, and `reordered`. -/
structure pp where
  buf : String
  argNum : Nat
  wrappedErrs : List Nat
  reordered : Bool
  deriving DecidableEq, Repr

/-- The method `pp.printArg` for a plain verb: `%v` prints any operand in its
default format, `%d` an int in decimal, `%s` a string or the `Error()` of an
error; `none` for the combinations left to `Fmt`. -/
def printArg (arg : GoValue) (verb : Char) : Option String :=
  match arg with
  | .nil => if verb = 'v' then some "<nil>" else none
  | .int n => if verb = 'v' ∨ verb = 'd' then some (toString n) else none
  | .str s => if verb = 'v' ∨ verb = 's' then some s else none
  | .err e => if verb = 'v' ∨ verb = 's' then some e.Error else none
  | .other _ => none

/-- The flag characters of a directive. -/
def isFlag (c : Char) : Bool :=
  c = '#' || c = '0' || c = '+' || c = '-' || c = ' '

/-- The function `tooLarge`. -/
def tooLarge (x : Nat) : Bool :=
  decide (1000000 < x)

/-- Result of `parsenum`: the number, whether one was read, and the text that
follows. -/
structure Num where
  num : Nat
  isnum : Bool
  rest : List Char
  deriving DecidableEq, Repr

/-- The loop of `parsenum`. On a number too large it gives up and returns its
`end`, here the end of the text. -/
def parsenum : List Char → Nat → Bool → Num
  | [], num, isnum => { num := num, isnum := isnum, rest := [] }
  | c :: s, num, isnum =>
    if c.isDigit then
      if tooLarge num then
        { num := 0, isnum := false, rest := [] }
      else
        parsenum s (num * 10 + (c.toNat - '0'.toNat)) true
    else
      { num := num, isnum := isnum, rest := c :: s }

/-- The end of `parseArgNumber`: `digits` is the text between the brackets and
`k` its length; the operand index is zero-based, so -1 for `[0]`. -/
def bracketNumber (digits : List Char) (k : Nat) : Int × Nat × Bool :=
  if !(parsenum digits 0 false).isnum || !(parsenum digits 0 false).rest.isEmpty then
    (0, k + 2, false)
  else
    (((parsenum digits 0 false).num : Int) - 1, k + 2, true)

/-- The function `parseArgNumber` on a text that starts with `[`: the operand
index, the number of characters to pass over, and whether the bracket was well
formed. -/
def parseArgNumber (s : List Char) : Int × Nat × Bool :=
  if s.length < 3 then
    (0, 1, false)
  else if (s.drop 1).indexOf ']' = (s.drop 1).length then
    (0, 1, false)
  else
    bracketNumber ((s.drop 1).take ((s.drop 1).indexOf ']')) ((s.drop 1).indexOf ']')

/-- The state of the scan of one directive. -/
structure Scan where
  argNum : Nat
  rest : List Char
  afterIndex : Bool
  reordered : Bool
  good : Bool
  stars : List (Option GoValue)

/-- The method `pp.argNumber`. -/
def argNumber (numArgs : Nat) (sc : Scan) : Scan :=
  if sc.rest.head? = some '[' then
    if (parseArgNumber sc.rest).2.2 && decide (0 ≤ (parseArgNumber sc.rest).1)
        && decide ((parseArgNumber sc.rest).1 < numArgs) then
      { sc with argNum := (parseArgNumber sc.rest).1.toNat,
                rest := sc.rest.drop (parseArgNumber sc.rest).2.1,
                afterIndex := true, reordered := true }
    else
      { sc with rest := sc.rest.drop (parseArgNumber sc.rest).2.1,
                afterIndex := (parseArgNumber sc.rest).2.2, reordered := true, good := false }
  else
    { sc with afterIndex := false }

/-- The function `intFromArg` as far as the scan goes: a `*` reads the next
operand when one is left. -/
def starArg (a : List GoValue) (sc : Scan) : Scan :=
  match a.get? sc.argNum with
  | some v =>
    { sc with argNum := sc.argNum + 1, rest := sc.rest.drop 1, afterIndex := false,
              stars := sc.stars ++ [some v] }
  | none =>
    { sc with rest := sc.rest.drop 1, afterIndex := false, stars := sc.stars ++ [none] }

/-- The number form of a width; a number after an operand index makes the
directive bad. -/
def widthNumber (sc : Scan) : Scan :=
  { sc with rest := (parsenum sc.rest 0 false).rest,
            good := sc.good && !(sc.afterIndex && (parsenum sc.rest 0 false).isnum) }

/-- The width of a directive: `*`, or a number. -/
def scanWidth (a : List GoValue) (sc : Scan) : Scan :=
  if sc.rest.head? = some '*' then
    starArg a sc
  else
    widthNumber sc

/-- The number form of a precision. -/
def precisionNumber (sc : Scan) : Scan :=
  { sc with rest := (parsenum sc.rest 0 false).rest }

/-- The start of a precision: the dot is passed, and an operand index right
before it makes the directive bad. -/
def afterDot (sc : Scan) : Scan :=
  { sc with rest := sc.rest.drop 1, good := sc.good && !sc.afterIndex }

/-- The precision of a directive: nothing, or `.` followed by an optional
operand index and `*` or a number. -/
def scanPrecision (a : List GoValue) (sc : Scan) : Scan :=
  if sc.rest.head? = some '.' then
    if (argNumber a.length (afterDot sc)).rest.head? = some '*' then
      starArg a (argNumber a.length (afterDot sc))
    else
      precisionNumber (argNumber a.length (afterDot sc))
  else
    sc

/-- The start of the scan of a directive: the flags are passed. -/
def startScan (argNum : Nat) (s : List Char) : Scan :=
  { argNum := argNum, rest := s.dropWhile isFlag, afterIndex := false,
    reordered := false, good := true, stars := [] }

/-- The last step of the scan: an operand index right before the verb, unless
one was just read. -/
def finalIndex (numArgs : Nat) (sc : Scan) : Scan :=
  if sc.afterIndex then sc else argNumber numArgs sc

/-- The scan of one directive of `doPrintf`, from the character after `%`:
flags, operand index, width, precision, operand index. -/
def scanDirective (a : List GoValue) (argNum : Nat) (s : List Char) : Scan :=
  finalIndex a.length
    (scanPrecision a (scanWidth a (argNumber a.length (startScan argNum s))))

/-- The scan with text appended to what is left of the format. -/
def Scan.extend (sc : Scan) (g : List Char) : Scan :=
  { sc with rest := sc.rest ++ g }

/-- The scan has text left and found an operand for every `*`. -/
def Scan.live (sc : Scan) : Prop :=
  sc.rest ≠ [] ∧ sc.stars.all Option.isSome = true

/-- The text of a directive: the characters after `%` up to its verb. -/
def directiveText (rest : List Char) (sc : Scan) : List Char :=
  rest.take (rest.length - sc.rest.length + 1)

/-- A directive is plain when its verb comes right after `%`. -/
def isPlain (rest : List Char) (sc : Scan) : Bool :=
  decide (rest.length = sc.rest.length)

/-- The printer state after the scan of a directive. -/
def noteScan (p : pp) (sc : Scan) : pp :=
  { p with argNum := sc.argNum, reordered := p.reordered || sc.reordered }

/-- What a scanned directive does to the printer state, in the order of the
`switch` of `doPrintf`: no verb left prints `%!(NOVERB)`; `%%` prints a percent
sign and takes no operand; a bad operand index prints `%!verb(BADINDEX)`; a
verb with no operand left prints `%!verb(MISSING)`; `%w` on an error operand,
when `wrapErrs` is set, records the operand index and prints the operand as
`%v` does (`%w` with flags or on another operand is outside the modelled
fragment), and without `wrapErrs` is a bad verb; any other verb prints its
operand. -/
def printDirective (fm : Fmt) (wrapErrs : Bool) (a : List GoValue) (p : pp)
    (text : List Char) (plain : Bool) (sc : Scan) : Outcome pp :=
  let q := noteScan p sc
  match sc.rest.head? with
  | none =>
    let out := if plain then "%!(NOVERB)" else fm.directive text sc.stars sc.good none
    .ok { q with buf := p.buf ++ out }
  | some verb =>
    if verb = '%' then
      let out := if plain then "%" else fm.directive text sc.stars sc.good none
      .ok { q with buf := p.buf ++ out }
    else if !sc.good then
      let out := fm.directive text sc.stars false none
      .ok { q with buf := p.buf ++ out }
    else
      match a.get? sc.argNum with
      | none =>
        let out := if plain then "%!" ++ String.singleton verb ++ "(MISSING)"
          else fm.directive text sc.stars true none
        .ok { q with buf := p.buf ++ out }
      | some arg =>
        if verb = 'w' then
          if wrapErrs then
            match arg, plain with
            | .err e, true =>
              let wrapped := p.wrappedErrs ++ [sc.argNum]
              .ok { q with buf := p.buf ++ e.Error, argNum := sc.argNum + 1, wrappedErrs := wrapped }
            | _, _ => .fault "fmt: %w with flags or on a non-error operand"
          else
            let out := fm.directive text sc.stars true (some arg)
            .ok { q with argNum := sc.argNum + 1, buf := p.buf ++ out }
        else
          let out := match (if plain then printArg arg verb else none) with
            | some out => out
            | none => fm.directive text sc.stars true (some arg)
          .ok { q with buf := p.buf ++ out, argNum := sc.argNum + 1 }

/-- One directive of `doPrintf`: `rest` is the format after `%`. -/
def directive (fm : Fmt) (wrapErrs : Bool) (a : List GoValue) (rest : List Char) (p : pp) :
    Outcome pp :=
  printDirective fm wrapErrs a p (directiveText rest (scanDirective a p.argNum rest))
    (isPlain rest (scanDirective a p.argNum rest)) (scanDirective a p.argNum rest)

/-- The method `pp.doPrintf`, one character of the format at a time; `skip`
counts the characters of the current directive still to be passed over.
Literal text is copied; at `%` the directive that follows is scanned and
printed, and its text is passed over. -/
def doPrintf (fm : Fmt) (wrapErrs : Bool) (a : List GoValue) :
    Nat → List Char → pp → Outcome pp
  | _, [], p => .ok p
  | skip + 1, _ :: rest, p => doPrintf fm wrapErrs a skip rest p
  | 0, c :: rest, p =>
    if c ≠ '%' then
      doPrintf fm wrapErrs a 0 rest { p with buf := p.buf ++ String.singleton c }
    else
      match directive fm wrapErrs a rest p with
      | .fault why => .fault why
      | .ok p2 =>
        doPrintf fm wrapErrs a
          (directiveText rest (scanDirective a p.argNum rest)).length rest p2

/-- The initial printer state. -/
def newPrinter : pp :=
  { buf := "", argNum := 0, wrappedErrs := [], reordered := false }

/-- The check at the end of `doPrintf` for operands left over. -/
def finishPrintf (fm : Fmt) (a : List GoValue) (r : Outcome pp) : Outcome pp :=
  match r with
  | .fault why => .fault why
  | .ok p =>
    if !p.reordered && decide (p.argNum < a.length) then
      .ok { p with buf := p.buf ++ fm.extra (a.drop p.argNum) }
    else
      .ok p

/-- The function `fmt.Sprintf`. -/
def Sprintf (fm : Fmt) (format : String) (a : List GoValue) : Outcome String :=
  match finishPrintf fm a (doPrintf fm false a 0 format.data newPrinter) with
  | .fault why => .fault why
  | .ok p => .ok p.buf

/-- The function `fmt.Errorf`: no `%w` gives an `errorString`, one `%w` gives a
`wrapError` around that operand (several `%w` are not modelled). -/
def Errorf (fm : Fmt) (format : String) (a : List GoValue) : Outcome GoError :=
  match finishPrintf fm a (doPrintf fm true a 0 format.data newPrinter) with
  | .fault why => .fault why
  | .ok p =>
    match p.wrappedErrs with
    | [] => .ok (.errorString p.buf)
    | [i] =>
      match a.get? i with
      | some (.err e) => .ok (.wrapError p.buf e)
      | _ => .fault "fmt: wrapped operand is not an error"
    | _ => .fault "fmt: several %w verbs"

/-! ## Package `pkg/errors` -/

/-- The function `Wrap` of `pkg/errors`. -/
def Wrap (fm : Fmt) (err : Option GoError) (format : String) (a : List GoValue) :
    Outcome (Option GoError) :=
  match err with
  | none => .ok none
  | some e =>
    let fmtArgs : List GoValue := []
    let fmtArgs := fmtArgs ++ a
    let fmtArgs := fmtArgs ++ [GoValue.err e]
    match Errorf fm (format ++ ": %w") fmtArgs with
    | .fault why => .fault why
    | .ok w => .ok (some w)

/-- The function `Newf` of `pkg/errors`. -/
def Newf (fm : Fmt) (format : String) (a : List GoValue) : Outcome GoError :=
  Errorf fm format a

/-! ### Formats that `Wrap` can extend

`Wrap` appends `": %w"` to the format and the error to the operands. The
predicates below say when that leaves the printing of the format itself
unchanged and hands the error to the appended `%w`. -/

/-- The bracket at the head of `s` reads the same with text appended: `s` is
not the two characters `[]`, which `parseArgNumber` passes by one character when
nothing follows and by two when something does. -/
def bracketStable (s : List Char) : Bool :=
  !(decide (s.length < 3) && !decide ((s.drop 1).indexOf ']' = (s.drop 1).length))

/-- An operand index at the head of the scan reads the same with one more
operand and more text: its bracket is stable, and it is not the index of the
operand that would be appended. -/
def argStable (numArgs : Nat) (sc : Scan) : Bool :=
  if sc.rest.head? = some '[' then
    bracketStable sc.rest
      && !((parseArgNumber sc.rest).2.2 && decide ((parseArgNumber sc.rest).1 = numArgs))
  else
    true

/-- The operand index of a precision, if there is one, is stable. -/
def precisionStable (numArgs : Nat) (sc : Scan) : Bool :=
  if sc.rest.head? = some '.' then argStable numArgs (afterDot sc) else true

/-- The last operand index of a directive, if one is looked for, is stable. -/
def finalStable (numArgs : Nat) (sc : Scan) : Bool :=
  sc.afterIndex || argStable numArgs sc

/-- Every operand index of the directive is stable. -/
def scanStable (a : List GoValue) (argNum : Nat) (s : List Char) : Bool :=
  argStable a.length (startScan argNum s)
    && precisionStable a.length (scanWidth a (argNumber a.length (startScan argNum s)))
    && finalStable a.length
        (scanPrecision a (scanWidth a (argNumber a.length (startScan argNum s))))

/-- The verb is not `w` and finds its operand. -/
def takesOperand (a : List GoValue) (verb : Char) (argNum : Nat) : Bool :=
  decide (verb ≠ 'w') && (a.get? argNum).isSome

/-- The directive after `%` is regular: its operand indices are stable, every
`*` found an operand, it has a verb, and the verb is `%`, or the operand index
is bad (which prints `%!verb(BADINDEX)` and takes no operand), or the verb is
not `w` and finds its operand. -/
def directiveRegular (a : List GoValue) (rest : List Char) (p : pp) : Bool :=
  scanStable a p.argNum rest
    && (scanDirective a p.argNum rest).stars.all Option.isSome
    && match (scanDirective a p.argNum rest).rest.head? with
      | none => false
      | some verb =>
        decide (verb = '%') || !(scanDirective a p.argNum rest).good
          || takesOperand a verb (scanDirective a p.argNum rest).argNum

/-- Every directive met by `Sprintf` on the format is regular; the recursion is
that of `doPrintf`. -/
def regularRun (fm : Fmt) (a : List GoValue) : Nat → List Char → pp → Bool
  | _, [], _ => true
  | skip + 1, _ :: rest, p => regularRun fm a skip rest p
  | 0, c :: rest, p =>
    if c ≠ '%' then
      regularRun fm a 0 rest { p with buf := p.buf ++ String.singleton c }
    else
      directiveRegular a rest p
        && match directive fm false a rest p with
          | .fault _ => false
          | .ok p2 =>
            regularRun fm a (directiveText rest (scanDirective a p.argNum rest)).length rest p2

/-- After the format the appended `%w` takes the error `err`: the next operand
index is the number of operands, or operand indices were used and the operand at
the next index is `err` itself. -/
def handsOver (err : GoError) (a : List GoValue) (p : pp) : Bool :=
  decide (p.argNum = a.length)
    || (p.reordered && decide (a.get? p.argNum = some (GoValue.err err)))

/-- The format is regular for its operands and the error to wrap: when
`Sprintf` formats it, every directive is regular, and after the last one the
appended `%w` takes the error. -/
def RegularFormat (fm : Fmt) (err : GoError) (format : String) (a : List GoValue) : Prop :=
  regularRun fm a 0 format.data newPrinter = true
    ∧ ∃ p, doPrintf fm false a 0 format.data newPrinter = .ok p ∧ handsOver err a p = true

instance (fm : Fmt) (err : GoError) (format : String) (a : List GoValue) :
    Decidable (RegularFormat fm err format a) :=
  match h : doPrintf fm false a 0 format.data newPrinter with
  | .fault why =>
    isFalse (fun hr => by
      obtain ⟨_, p, hp, _⟩ := hr
      rw [h] at hp
      cases hp)
  | .ok p =>
    if hc : regularRun fm a 0 format.data newPrinter = true ∧ handsOver err a p = true then
      isTrue ⟨hc.1, p, h, hc.2⟩
    else
      isFalse (fun hr => by
        obtain ⟨h1, q, hq, h2⟩ := hr
        rw [h] at hq
        cases hq
        exact hc ⟨h1, h2⟩)

/-- A renderer that prints a question mark wherever `Fmt` is consulted. -/
def sampleFmt : Fmt :=
  { directive := fun _ _ _ _ => "?", extra := fun _ => "?" }

/-! ## Package `strings` -/

/-- The function `strings.HasPrefix` on character lists. -/
def hasPrefix : List Char → List Char → Bool
  | _, [] => true
  | [], _ :: _ => false
  | c :: s, p :: ps => c == p && hasPrefix s ps

/-- The function `strings.Contains` on character lists: is there an offset of
`s` at which `substr` starts. -/
def containsChars : List Char → List Char → Bool
  | [], substr => hasPrefix [] substr
  | c :: s, substr => hasPrefix (c :: s) substr || containsChars s substr

/-- The function `strings.Contains`. -/
def stringsContains (s substr : String) : Bool :=
  containsChars s.data substr.data

/-- Left-to-right scan of `strings.ReplaceAll` for a non-empty `old`: `skip`
counts the characters of a matched occurrence that are still to be passed over;
at `skip = 0` an occurrence of `old` starting here is replaced by `new`, and
any other character is copied. -/
def replaceScan (old new : List Char) : Nat → List Char → List Char
  | _, [] => []
  | skip + 1, _ :: s => replaceScan old new skip s
  | 0, c :: s =>
    if hasPrefix (c :: s) old then
      new ++ replaceScan old new (old.length - 1) s
    else
      c :: replaceScan old new 0 s

/-- The function `strings.ReplaceAll` on character lists: every non-overlapping
occurrence of `old`, found from the left, is replaced by `new`; an empty `old`
matches before every character and at the end. -/
def replaceAllChars (s old new : List Char) : List Char :=
  if old.isEmpty then
    new ++ s.flatMap (fun c => c :: new)
  else
    replaceScan old new 0 s

/-- The function `strings.ReplaceAll`. -/
def stringsReplaceAll (s old new : String) : String :=
  String.mk (replaceAllChars s.data old.data new.data)

/-! ## Nodes and the node filter -/

/-- The fields of `v1.NodeCondition` that the code reads. -/
structure NodeCondition where
  type : String
  status : String
  deriving DecidableEq, Repr

/-- The fields of `v1.Node` that the code reads: `Name`, `Spec.ProviderID` and
`Status.Conditions`. -/
structure Node where
  name : String
  providerID : String
  conditions : List NodeCondition
  deriving DecidableEq, Repr

/-- The constant `v1.ConditionTrue`. -/
def ConditionTrue : String := "True"

/-- The loop of `nodeHasScheduledEvent` over the conditions. -/
def hasScheduledEvent : List NodeCondition → Bool
  | [] => false
  | condition :: rest =>
    if condition.type == "VMEventScheduled" && condition.status == ConditionTrue then
      true
    else
      hasScheduledEvent rest

/-- The function `nodeHasScheduledEvent`. -/
def nodeHasScheduledEvent (node : Node) : Bool :=
  hasScheduledEvent node.conditions

/-- One iteration of the loop of `filterNodes`: `continue` on a syspool node,
`continue` on a node with a scheduled event, `append` otherwise. -/
def filterStep (filtered : List Node) (node : Node) : List Node :=
  if stringsContains node.name "syspool" then
    filtered
  else if nodeHasScheduledEvent node then
    filtered
  else
    filtered ++ [node]

/-- The method `Landlord.filterNodes`: the loop starts from the nil slice. -/
def filterNodes (nodes : List Node) : List Node :=
  nodes.foldl filterStep []

/-! ### The filter policy as the specification words it -/

/-- First exclusion: the name contains the substring "syspool". -/
def IsSyspool (node : Node) : Prop :=
  "syspool".data <:+: node.name.data

/-- Second exclusion: some condition has type "VMEventScheduled" and status
True. -/
def HasScheduledEviction (node : Node) : Prop :=
  ∃ c ∈ node.conditions, c.type = "VMEventScheduled" ∧ c.status = "True"

/-- A node failing neither exclusion is eligible. -/
def Eligible (node : Node) : Prop :=
  ¬ IsSyspool node ∧ ¬ HasScheduledEviction node

instance : DecidablePred Eligible := fun node => by
  unfold Eligible IsSyspool HasScheduledEviction
  infer_instance

/-! ## The collaborators of `Landlord` -/

/-- The interface `rand` as a state machine over generator states `ρ`.
`Intn r n` is the value returned by `Intn(n)` in state `r`, with the next state.
`Shuffle r n` lists, in call order, the index pairs `(i, j)` with which
`Shuffle(n, swap)` calls `swap`, with the next state; `swap` returns nothing, so
the calls depend on the generator state and `n` only. -/
structure Rand (ρ : Type) where
  Intn : ρ → Int → Int × ρ
  Shuffle : ρ → Int → List (Int × Int) × ρ

/-- The type `virtualmachinescalesetvms.VirtualMachineScaleSetVirtualMachineId`. -/
structure VmId where
  subscriptionId : String
  resourceGroupName : String
  virtualMachineScaleSetName : String
  instanceId : String
  deriving DecidableEq, Repr

/-- What `evict` reads of a `SimulateEvictionOperationResponse`: the status code
and the result of `io.ReadAll` on the body. -/
structure Response where
  statusCode : Int
  body : Except GoError String

/-- The Azure SDK as `evict` uses it: the ID parser
`ParseVirtualMachineScaleSetVirtualMachineID` and the `evicter` interface. The
result of a call under the context deadline is what the function returns. -/
structure Azure where
  ParseID : String → Except GoError VmId
  SimulateEviction : VmId → Except GoError Response

/-- Logger levels of `pkg/log` that the code uses. -/
inductive Level where
  | info
  | debug
  | error
  deriving DecidableEq, Repr

/-- Observable side effects, in program order. A logger call is recorded with
its level and format string. -/
inductive Effect where
  | log (level : Level) (format : String)
  | randIntn (n : Int)
  | randShuffle (n : Int)
  | listNodes
  | go (node : Node)
  | sleep (seconds : Int)
  | parseID (input : String)
  | simulateEviction (id : VmId)
  | readAll
  deriving DecidableEq, Repr

/-- The struct `Landlord`; `interval` is a `time.Duration`, an int64 count of
nanoseconds (the model reads it only through `intervalSeconds`). The
logger, lister and evicter fields are passed to the methods that use them. -/
structure Landlord (ρ : Type) where
  rand : Rand ρ
  minEvictions : Int
  maxEvictions : Int
  interval : Int

/-- The constant `time.Second`, in nanoseconds. -/
def Second : Int := 1000000000

/-- The function `New`. -/
def New {ρ : Type} (rand : Rand ρ) : Landlord ρ :=
  { rand := rand, minEvictions := 5, maxEvictions := 20, interval := Second * 10 }

/-- The expression `int(l.interval.Seconds())`. `time.Duration.Seconds` computes
in float64, which is not modelled: `toSeconds d` stands for the int that the
conversion yields on a duration of `d` nanoseconds, and is a parameter. -/
def intervalSeconds {ρ : Type} (toSeconds : Int → Int) (l : Landlord ρ) : Int :=
  toSeconds l.interval

/-- Truncating division by `time.Second`, the conversion used in the samples. -/
def wholeSeconds (d : Int) : Int :=
  Int.tdiv d Second

/-! ## `Landlord.count` and `Landlord.sweep` -/

/-- The method `Landlord.count`: the drawn value, the next generator state and
the call made to the random source. -/
def count {ρ : Type} (l : Landlord ρ) (r : ρ) : Int × ρ × List Effect :=
  let n := wrapInt (l.maxEvictions - l.minEvictions)
  let drawn := l.rand.Intn r n
  (wrapInt (drawn.1 + l.minEvictions), drawn.2, [Effect.randIntn n])

/-- The closure passed to `Shuffle`:
`filtered[i], filtered[j] = filtered[j], filtered[i]`. An index outside the
slice is a run-time panic. -/
def swap {α : Type} (filtered : List α) (i j : Int) : Outcome (List α) :=
  if 0 ≤ i ∧ 0 ≤ j then
    match filtered.get? i.toNat, filtered.get? j.toNat with
    | some x, some y => .ok ((filtered.set i.toNat y).set j.toNat x)
    | _, _ => .fault "index out of range"
  else
    .fault "index out of range"

/-- The calls to `swap` that one `Shuffle` makes, applied in order. -/
def applySwaps {α : Type} : List α → List (Int × Int) → Outcome (List α)
  | filtered, [] => .ok filtered
  | filtered, (i, j) :: rest =>
    match swap filtered i j with
    | .fault why => .fault why
    | .ok filtered2 => applySwaps filtered2 rest

/-- The dispatch loop `for i := 0; i < evictionCount; i++`, from index `i` with
`n` iterations left: each iteration starts a goroutine that reads
`filtered[index]` and runs the eviction worker on it. -/
def dispatch (filtered : List Node) : Nat → Nat → Outcome (List Effect)
  | _, 0 => .ok []
  | i, n + 1 =>
    match filtered.get? i with
    | none => .fault "index out of range"
    | some node =>
      match dispatch filtered (i + 1) n with
      | .fault why => .fault why
      | .ok fx => .ok (Effect.go node :: fx)

/-- What a call of `sweep` leaves behind: the returned error, the effects in
program order and the generator state. -/
structure SweepResult (ρ : Type) where
  err : Option GoError
  effects : List Effect
  randState : ρ

/-- The nodes handed to eviction workers, in dispatch order. -/
def spawned : List Effect → List Node
  | [] => []
  | Effect.go node :: fx => node :: spawned fx
  | _ :: fx => spawned fx

/-- The calls made to the random source, in order. -/
def randCalls : List Effect → List Effect
  | [] => []
  | Effect.randIntn n :: fx => Effect.randIntn n :: randCalls fx
  | Effect.randShuffle n :: fx => Effect.randShuffle n :: randCalls fx
  | _ :: fx => randCalls fx

/-- The eviction count after the clamp `if evictionCount > filteredCount`. -/
def clampCount (evictionCount filteredCount : Int) : Int :=
  if evictionCount > filteredCount then filteredCount else evictionCount

/-- The method `Landlord.sweep`. `listed` is what `l.lister.List` returns in
this sweep: the items of the node list, or an error. -/
def sweep {ρ : Type} (fm : Fmt) (l : Landlord ρ) (listed : Except GoError (List Node))
    (r : ρ) : Outcome (SweepResult ρ) :=
  let fx0 := [Effect.log .info "Sweeping nodes with min evictions %d and max evictions %d"]
  let drawn := count l r
  let evictionCount := drawn.1
  let r1 := drawn.2.1
  let fx1 := fx0 ++ drawn.2.2
    ++ [Effect.log .info "Generated an eviction count of %d", Effect.listNodes]
  match listed with
  | .error err =>
    match Wrap fm (some err) "error listing nodes" [] with
    | .fault why => .fault why
    | .ok wrapped => .ok { err := wrapped, effects := fx1, randState := r1 }
  | .ok nodes =>
    let fx2 := fx1 ++ [Effect.log .info "Found %d nodes"]
    let filtered := filterNodes nodes
    let filteredCount : Int := filtered.length
    let fx3 := fx2 ++ [Effect.log .info "Filtered %d nodes to %d"]
    let fx4 := if evictionCount > filteredCount then
        fx3 ++ [Effect.log .info
          "Eviction count (%d) is greater than the amount of filtered nodes (%d), setting eviction count to %d"]
      else fx3
    let evictionCount := clampCount evictionCount filteredCount
    let shuffle := l.rand.Shuffle r1 filteredCount
    let fx5 := fx4 ++ [Effect.randShuffle filteredCount]
    match applySwaps filtered shuffle.1 with
    | .fault why => .fault why
    | .ok shuffled =>
      match dispatch shuffled 0 evictionCount.toNat with
      | .fault why => .fault why
      | .ok started => .ok { err := none, effects := fx5 ++ started, randState := shuffle.2 }

/-- The `Shuffle` calls that follow a listing in `sweep`: one, on the eligible
nodes, when the listing succeeded; none when it failed. -/
def shuffleCallsAfter (listed : Except GoError (List Node)) : List Effect :=
  match listed with
  | .ok nodes => [Effect.randShuffle (filterNodes nodes).length]
  | .error _ => []

/-! ### Contracts of the random source, at the calls that `sweep` makes -/

/-- The value that `Intn(n)` returns in state `r` lies in `[0, n)`. -/
def IntnInRange {ρ : Type} (rand : Rand ρ) (r : ρ) (n : Int) : Prop :=
  0 ≤ (rand.Intn r n).1 ∧ (rand.Intn r n).1 < n

/-- Every pair of indices is inside `[0, n)`. -/
def SwapsInRange (n : Int) (swaps : List (Int × Int)) : Prop :=
  ∀ p ∈ swaps, (0 ≤ p.1 ∧ p.1 < n) ∧ (0 ≤ p.2 ∧ p.2 < n)

/-- In state `r`, `Shuffle(n, swap)` only calls `swap` with indices in `[0, n)`. -/
def ShuffleInRange {ρ : Type} (rand : Rand ρ) (r : ρ) (n : Int) : Prop :=
  SwapsInRange n (rand.Shuffle r n).1

instance (x : Int) : Decidable (IsGoInt x) := by
  unfold IsGoInt; infer_instance

instance {ρ : Type} (rand : Rand ρ) (r : ρ) (n : Int) : Decidable (IntnInRange rand r n) := by
  unfold IntnInRange; infer_instance

instance (n : Int) (swaps : List (Int × Int)) : Decidable (SwapsInRange n swaps) := by
  unfold SwapsInRange; infer_instance

instance {ρ : Type} (rand : Rand ρ) (r : ρ) (n : Int) :
    Decidable (ShuffleInRange rand r n) := by
  unfold ShuffleInRange; infer_instance

/-- The argument of the `Intn` call that `count` makes. -/
def countBound {ρ : Type} (l : Landlord ρ) : Int :=
  wrapInt (l.maxEvictions - l.minEvictions)

/-- The generator state in which `sweep` calls `Shuffle`: the one `count` left. -/
def stateAfterCount {ρ : Type} (l : Landlord ρ) (r : ρ) : ρ :=
  (count l r).2.1

/-! ### Sample collaborators -/

/-- A random source over a counter: `Intn(n)` returns the counter modulo `n`
and advances it; `Shuffle(n, swap)` swaps each index `i` of `[1, n)` with index
`(counter + i) mod (i + 1)`, from the last index down. -/
def counterRand : Rand Nat where
  Intn := fun r n => (if 0 < n then (r : Int) % n else 0, r + 1)
  Shuffle := fun r n =>
    (((List.range n.toNat).reverse.filter (fun i => 0 < i)).map
      (fun i => (Int.ofNat i, Int.ofNat ((r + i) % (i + 1)))), r + 1)

/-- A random source whose `Shuffle` calls `swap(0, 5)` whatever `n` is. -/
def strayRand : Rand Nat where
  Intn := fun r _ => (0, r + 1)
  Shuffle := fun r _ => ([(0, 5)], r + 1)

/-- A worker node named `name` with the given provider ID and no condition. -/
def plainNode (name providerID : String) : Node :=
  { name := name, providerID := providerID, conditions := [] }

/-- A landlord whose eviction bounds are both negative. -/
def negativeLandlord : Landlord Nat :=
  { rand := counterRand, minEvictions := -5, maxEvictions := -1, interval := Second * 10 }

/-- A listing of four nodes: two plain workers, a system-pool node and a worker
flagged with a scheduled event. -/
def sampleNodes : List Node :=
  [ plainNode "worker-1" "azure:///subscriptions/s/vm/1",
    plainNode "aks-syspool-7" "azure:///subscriptions/s/vm/2",
    { name := "worker-2", providerID := "",
      conditions := [{ type := "VMEventScheduled", status := "True" }] },
    plainNode "worker-3" "" ]

/-! ## `Landlord.evict` -/

/-- What a call of `evict` leaves behind. -/
structure EvictResult (ρ : Type) where
  err : Option GoError
  effects : List Effect
  randState : ρ

/-- The method `Landlord.readBody`, given the result of `io.ReadAll`. -/
def readBody (fm : Fmt) (read : Except GoError String) :
    Outcome (String × Option GoError) :=
  match read with
  | .error err =>
    match Wrap fm (some err) "could not read body" [] with
    | .fault why => .fault why
    | .ok wrapped => .ok ("", wrapped)
  | .ok bytes => .ok (bytes, none)

/-- The method `Landlord.evict`. -/
def evict {ρ : Type} (fm : Fmt) (toSeconds : Int → Int) (l : Landlord ρ) (azure : Azure)
    (r : ρ) (node : Node) : Outcome (EvictResult ρ) :=
  let drawn := l.rand.Intn r (intervalSeconds toSeconds l)
  let seconds := drawn.1
  let r1 := drawn.2
  let fx0 := [Effect.randIntn (intervalSeconds toSeconds l),
    Effect.log .info "Sleeping %s before evicting %s", Effect.sleep seconds]
  let providerID := node.providerID
  if providerID = "" then
    .ok { err := none, randState := r1, effects := fx0 ++ [Effect.log .info
      "Node %s has no provider ID (perhaps it was already evicted?), returning"] }
  else
    let resourceID := stringsReplaceAll providerID "azure://" ""
    let fx1 := fx0 ++ [Effect.log .debug "Parsing resource ID %s", Effect.parseID resourceID]
    match azure.ParseID resourceID with
    | .error err =>
      match Wrap fm (some err) "error parsing VM ID %s" [GoValue.str resourceID] with
      | .fault why => .fault why
      | .ok wrapped => .ok { err := wrapped, effects := fx1, randState := r1 }
    | .ok id =>
      let fx2 := fx1 ++ [Effect.log .info "Evicting %s", Effect.simulateEviction id]
      match azure.SimulateEviction id with
      | .error err =>
        match Wrap fm (some err) "error evicting %s" [GoValue.str node.name] with
        | .fault why => .fault why
        | .ok wrapped => .ok { err := wrapped, effects := fx2, randState := r1 }
      | .ok result =>
        let fx3 := fx2 ++ [Effect.readAll]
        match readBody fm result.body with
        | .fault why => .fault why
        | .ok (_, some err) => .ok { err := some err, effects := fx3, randState := r1 }
        | .ok (_, none) =>
          .ok { err := none, randState := r1, effects := fx3 ++ [Effect.log .info
            "Eviction of %s got response code %d with body %s"] }

/-- The calls to the eviction API among some effects. -/
def evictionCalls : List Effect → List VmId
  | [] => []
  | Effect.simulateEviction id :: fx => id :: evictionCalls fx
  | _ :: fx => evictionCalls fx

/-- The inputs given to the ID parser among some effects. -/
def parseCalls : List Effect → List String
  | [] => []
  | Effect.parseID input :: fx => input :: parseCalls fx
  | _ :: fx => parseCalls fx

/-- An SDK double: the parser accepts any input that starts with a slash and
puts it in the instance field; the eviction call answers 204 with an empty
body. -/
def sampleAzure : Azure where
  ParseID := fun input =>
    if hasPrefix input.data ['/'] then
      .ok { subscriptionId := "", resourceGroupName := "",
            virtualMachineScaleSetName := "", instanceId := input }
    else
      .error (.errorString "parsing failed")
  SimulateEviction := fun _ => .ok { statusCode := 204, body := .ok "" }

/-! ## `tick` -/

/-- The case that a `select` of the loop of `tick` takes: the context is done,
or the ticker delivers a signal. -/
inductive Select where
  | done
  | tickerC
  deriving DecidableEq, Repr

/-- A step of a run of `tick`: an invocation of the tick function, or a
`select` that took the given case. -/
inductive TickStep where
  | invoke
  | select (case : Select)
  deriving DecidableEq, Repr

/-- A run of `tick`: whether it has returned (otherwise it is blocked in
`select`), its steps in order, and the state the tick function left. -/
structure TickRun (σ : Type) where
  returned : Bool
  steps : List TickStep
  state : σ

/-- The `for { select { ... } }` loop of `tick`, driven by the cases that the
successive `select`s take. -/
def tickLoop {σ : Type} (t : σ → σ) : List Select → List TickStep → σ → TickRun σ
  | [], steps, s => { returned := false, steps := steps, state := s }
  | Select.done :: _, steps, s =>
    { returned := true, steps := steps ++ [TickStep.select .done], state := s }
  | Select.tickerC :: rest, steps, s =>
    tickLoop t rest (steps ++ [TickStep.select .tickerC, TickStep.invoke]) (t s)

/-- The function `tick`: the tick function `t` (a transformer of the state it
acts on) runs once, then the loop starts. -/
def tick {σ : Type} (t : σ → σ) (selects : List Select) (s : σ) : TickRun σ :=
  tickLoop t selects [TickStep.invoke] (t s)

/-- The number of invocations of the tick function in a run. -/
def invocations : List TickStep → Nat
  | [] => 0
  | TickStep.invoke :: steps => invocations steps + 1
  | TickStep.select _ :: steps => invocations steps

/-! ## Lemmas on the string functions -/

theorem hasPrefix_iff (s p : List Char) : hasPrefix s p = true ↔ p <+: s := by
  induction p generalizing s with
  | nil => simp [hasPrefix]
  | cons a p ih =>
    cases s with
    | nil => simp [hasPrefix]
    | cons c s =>
      simp only [hasPrefix, Bool.and_eq_true, beq_iff_eq, ih, List.cons_prefix_cons]
      constructor
      · rintro ⟨h1, h2⟩; exact ⟨h1.symm, h2⟩
      · rintro ⟨h1, h2⟩; exact ⟨h1.symm, h2⟩

theorem containsChars_iff (s sub : List Char) :
    containsChars s sub = true ↔ sub <:+: s := by
  induction s with
  | nil =>
    simp only [containsChars, hasPrefix_iff]
    constructor
    · intro h; exact h.isInfix
    · intro h
      have := List.eq_nil_of_infix_nil h
      subst this; exact List.prefix_refl _
  | cons c s ih =>
    simp only [containsChars, Bool.or_eq_true, hasPrefix_iff, ih]
    rw [List.infix_cons_iff]

theorem stringsContains_syspool (node : Node) :
    stringsContains node.name "syspool" = true ↔ IsSyspool node := by
  unfold stringsContains IsSyspool
  exact containsChars_iff _ _

theorem nodeHasScheduledEvent_iff (node : Node) :
    nodeHasScheduledEvent node = true ↔ HasScheduledEviction node := by
  unfold nodeHasScheduledEvent HasScheduledEviction
  induction node.conditions with
  | nil => simp [hasScheduledEvent]
  | cons c cs ih =>
    simp only [hasScheduledEvent, ConditionTrue, List.mem_cons, exists_eq_or_imp]
    by_cases h : c.type = "VMEventScheduled" ∧ c.status = "True"
    · simp [h.1, h.2]
    · have : ((c.type == "VMEventScheduled" && c.status == "True") = false) := by
        simpa using h
      simp only [this, Bool.false_eq_true, if_false, ih]
      tauto

theorem filterStep_eq (filtered : List Node) (node : Node) :
    filterStep filtered node = filtered ++ [node].filter (fun n => decide (Eligible n)) := by
  unfold filterStep
  by_cases h1 : stringsContains node.name "syspool" = true
  · have : ¬ Eligible node := fun h => h.1 ((stringsContains_syspool node).1 h1)
    simp [h1, this]
  · by_cases h2 : nodeHasScheduledEvent node = true
    · have : ¬ Eligible node := fun h => h.2 ((nodeHasScheduledEvent_iff node).1 h2)
      simp [h1, h2, this]
    · have : Eligible node :=
        ⟨fun h => h1 ((stringsContains_syspool node).2 h),
         fun h => h2 ((nodeHasScheduledEvent_iff node).2 h)⟩
      simp [h1, h2, this]

theorem foldl_filterStep (nodes acc : List Node) :
    nodes.foldl filterStep acc = acc ++ nodes.filter (fun n => decide (Eligible n)) := by
  induction nodes generalizing acc with
  | nil => simp
  | cons n ns ih =>
    rw [List.foldl_cons, ih, filterStep_eq]
    by_cases h : Eligible n <;> simp [List.filter_cons, h]

theorem filterNodes_eq_filter (nodes : List Node) :
    filterNodes nodes = nodes.filter (fun n => decide (Eligible n)) := by
  simp [filterNodes, foldl_filterStep]

/-! ## Lemmas on the scanner of `doPrintf`

A scan that ends on a verb, with a good operand index and an operand for every
`*`, reads the same directive when text is appended to the format and operands
are appended to the operand list. -/

theorem string_append_empty (s : String) : s ++ "" = s :=
  String.append_empty s

theorem string_empty_append (s : String) : "" ++ s = s :=
  String.empty_append s

theorem parsenum_append (g : List Char) :
    ∀ (s : List Char) (num : Nat) (isnum : Bool), (parsenum s num isnum).rest ≠ [] →
      parsenum (s ++ g) num isnum
        = { parsenum s num isnum with rest := (parsenum s num isnum).rest ++ g } := by
  intro s
  induction s with
  | nil => intro num isnum h; simp [parsenum] at h
  | cons c s ih =>
    intro num isnum h
    rw [List.cons_append, parsenum, parsenum]
    rw [parsenum] at h
    by_cases hd : c.isDigit = true
    · by_cases hl : tooLarge num = true
      · simp [hd, hl] at h
      · simp only [hd, hl, if_true, Bool.false_eq_true, if_false] at h ⊢
        exact ih _ _ h
    · simp [hd]

theorem indexOf_append_left (c : Char) (g : List Char) :
    ∀ (s : List Char), s.indexOf c ≠ s.length → (s ++ g).indexOf c = s.indexOf c := by
  intro s
  induction s with
  | nil => intro h; simp at h
  | cons x s ih =>
    intro h
    rw [List.cons_append, List.indexOf_cons, List.indexOf_cons]
    rw [List.indexOf_cons] at h
    by_cases hx : (x == c) = true
    · simp [hx]
    · simp only [hx, Bool.false_eq_true, if_false, List.length_cons, ne_eq,
        Nat.add_right_cancel_iff, cond_false] at h ⊢
      rw [ih h]

theorem indexOf_le_length (c : Char) (s : List Char) : s.indexOf c ≤ s.length :=
  List.indexOf_le_length

theorem bracketNumber_wid (digits : List Char) (k : Nat) :
    (bracketNumber digits k).2.1 = k + 2 := by
  unfold bracketNumber
  split <;> rfl

theorem parseArgNumber_append (s g : List Char) (hg : ']' ∉ g) (hne : s ≠ [])
    (hc : bracketStable s = true) :
    parseArgNumber (s ++ g) = parseArgNumber s ∧ (parseArgNumber s).2.1 ≤ s.length := by
  have hpos : 0 < s.length := List.length_pos.2 hne
  have hdrop : (s ++ g).drop 1 = s.drop 1 ++ g := by
    rw [List.drop_append_of_le_length]; omega
  by_cases hk : (s.drop 1).indexOf ']' = (s.drop 1).length
  · have hmem : ']' ∉ s.drop 1 := List.indexOf_eq_length.1 hk
    have hk2 : (s.drop 1 ++ g).indexOf ']' = (s.drop 1 ++ g).length := by
      apply List.indexOf_eq_length.2
      intro hm
      rcases List.mem_append.1 hm with h1 | h1
      · exact hmem h1
      · exact hg h1
    have e1 : parseArgNumber s = (0, 1, false) := by
      unfold parseArgNumber
      by_cases hlen : s.length < 3
      · rw [if_pos hlen]
      · rw [if_neg hlen, if_pos hk]
    have e2 : parseArgNumber (s ++ g) = (0, 1, false) := by
      unfold parseArgNumber
      by_cases hlen : (s ++ g).length < 3
      · rw [if_pos hlen]
      · rw [if_neg hlen, hdrop, if_pos hk2]
    rw [e1, e2]
    exact ⟨rfl, hpos⟩
  · have hlen : ¬ s.length < 3 := by
      intro hlen
      have hf : bracketStable s = false := by
        unfold bracketStable
        simp only [hlen, hk, decide_True, decide_False, Bool.not_false, Bool.and_self,
          Bool.not_true]
      rw [hf] at hc
      cases hc
    have hlen2 : ¬ (s ++ g).length < 3 := by
      rw [List.length_append]; omega
    have hidx := indexOf_append_left ']' g (s.drop 1) hk
    have hle := indexOf_le_length ']' (s.drop 1)
    have hk2 : ¬ ((s.drop 1 ++ g).indexOf ']' = (s.drop 1 ++ g).length) := by
      rw [hidx, List.length_append]; omega
    have htake : (s.drop 1 ++ g).take ((s.drop 1).indexOf ']')
        = (s.drop 1).take ((s.drop 1).indexOf ']') := by
      rw [List.take_append_of_le_length hle]
    unfold parseArgNumber
    rw [if_neg hlen, if_neg hlen2, hdrop, if_neg hk, if_neg hk2, hidx, htake, bracketNumber_wid]
    refine ⟨rfl, ?_⟩
    rw [List.length_drop] at hle hk
    omega

theorem head_append (s g : List Char) (hs : s ≠ []) : (s ++ g).head? = s.head? := by
  cases s with
  | nil => exact absurd rfl hs
  | cons c t => rfl

theorem drop_one_append (s g : List Char) (hs : s ≠ []) : (s ++ g).drop 1 = s.drop 1 ++ g := by
  cases s with
  | nil => exact absurd rfl hs
  | cons c t => rfl

theorem argNumber_back (n : Nat) (sc : Scan) (h : (argNumber n sc).live) : sc.live := by
  unfold Scan.live at h ⊢
  unfold argNumber at h
  split at h
  · rename_i hhead
    have hne : sc.rest ≠ [] := by
      intro he; rw [he] at hhead; cases hhead
    split at h
    · exact ⟨hne, h.2⟩
    · exact ⟨hne, h.2⟩
  · exact h

theorem argNumber_append (n : Nat) (g : List Char) (hg : ']' ∉ g) (sc : Scan)
    (h : (argNumber n sc).live) (hst : argStable n sc = true) :
    argNumber (n + 1) (sc.extend g) = (argNumber n sc).extend g := by
  have hne : sc.rest ≠ [] := (argNumber_back n sc h).1
  have hhead : (sc.extend g).rest.head? = sc.rest.head? := head_append sc.rest g hne
  unfold argStable at hst
  by_cases hb : sc.rest.head? = some '['
  · rw [if_pos hb] at hst
    simp only [Bool.and_eq_true, Bool.not_eq_true', Bool.and_eq_false_iff,
      decide_eq_false_iff_not] at hst
    obtain ⟨hclosed, hidx⟩ := hst
    obtain ⟨hp, hw⟩ := parseArgNumber_append sc.rest g hg hne hclosed
    have hp2 : parseArgNumber (sc.extend g).rest = parseArgNumber sc.rest := hp
    have hdrop : (sc.extend g).rest.drop (parseArgNumber sc.rest).2.1
        = sc.rest.drop (parseArgNumber sc.rest).2.1 ++ g :=
      List.drop_append_of_le_length hw
    by_cases hcond : ((parseArgNumber sc.rest).2.2
        && decide (0 ≤ (parseArgNumber sc.rest).1)
        && decide ((parseArgNumber sc.rest).1 < (n : Int))) = true
    · have hcond2 : ((parseArgNumber sc.rest).2.2
          && decide (0 ≤ (parseArgNumber sc.rest).1)
          && decide ((parseArgNumber sc.rest).1 < ((n + 1 : Nat) : Int))) = true := by
        simp only [Bool.and_eq_true, decide_eq_true_eq] at hcond ⊢
        refine ⟨hcond.1, ?_⟩
        have := hcond.2
        omega
      unfold argNumber
      rw [hhead, if_pos hb, hp2, if_pos hcond2, hdrop, if_pos hb, if_pos hcond]
      rfl
    · have hcond2 : ¬ (((parseArgNumber sc.rest).2.2
          && decide (0 ≤ (parseArgNumber sc.rest).1)
          && decide ((parseArgNumber sc.rest).1 < ((n + 1 : Nat) : Int))) = true) := by
        intro hc2
        apply hcond
        simp only [Bool.and_eq_true, decide_eq_true_eq] at hc2 ⊢
        refine ⟨hc2.1, ?_⟩
        have h1 := hc2.2
        rcases hidx with hf | hne2
        · rw [hc2.1.1] at hf; cases hf
        · push_cast at h1
          omega
      unfold argNumber
      rw [hhead, if_pos hb, hp2, if_neg hcond2, hdrop, if_pos hb, if_neg hcond]
      rfl
  · unfold argNumber
    rw [hhead, if_neg hb, if_neg hb]
    rfl

theorem get?_append_some (a tail : List GoValue) (n : Nat) (v : GoValue)
    (h : a.get? n = some v) : (a ++ tail).get? n = some v := by
  rw [List.get?_eq_getElem?] at h ⊢
  have hn : n < a.length := by
    by_contra hc
    rw [List.getElem?_eq_none (by omega)] at h
    cases h
  rw [List.getElem?_append_left hn]
  exact h

theorem starArg_back (a : List GoValue) (sc : Scan) (h : (starArg a sc).live) :
    sc.live ∧ ∃ v, a.get? sc.argNum = some v := by
  unfold Scan.live at h ⊢
  unfold starArg at h
  cases hv : a.get? sc.argNum with
  | none =>
    rw [hv] at h
    have := h.2
    simp at this
  | some v =>
    rw [hv] at h
    refine ⟨⟨?_, ?_⟩, v, rfl⟩
    · intro he
      apply h.1
      simp [he]
    · have := h.2
      simp only [List.all_append, Bool.and_eq_true] at this
      exact this.1

theorem starArg_append (a tail : List GoValue) (g : List Char) (sc : Scan)
    (h : (starArg a sc).live) :
    starArg (a ++ tail) (sc.extend g) = (starArg a sc).extend g := by
  obtain ⟨hf, v, hv⟩ := starArg_back a sc h
  have hv2 : (a ++ tail).get? (sc.extend g).argNum = some v := get?_append_some a tail _ v hv
  unfold starArg
  rw [hv, hv2]
  simp only [Scan.extend, drop_one_append sc.rest g hf.1]

theorem widthNumber_back (sc : Scan) (h : (widthNumber sc).live) : sc.live := by
  unfold Scan.live widthNumber at *
  refine ⟨?_, h.2⟩
  intro he
  apply h.1
  simp [he, parsenum]

theorem widthNumber_append (g : List Char) (sc : Scan) (h : (widthNumber sc).live) :
    widthNumber (sc.extend g) = (widthNumber sc).extend g := by
  unfold widthNumber at h ⊢
  have hp : parsenum (sc.extend g).rest 0 false
      = { parsenum sc.rest 0 false with rest := (parsenum sc.rest 0 false).rest ++ g } :=
    parsenum_append g sc.rest 0 false h.1
  rw [hp]
  rfl

theorem scanWidth_back (a : List GoValue) (sc : Scan) (h : (scanWidth a sc).live) :
    sc.live := by
  unfold scanWidth at h
  split at h
  · exact (starArg_back a sc h).1
  · exact widthNumber_back sc h

theorem scanWidth_append (a tail : List GoValue) (g : List Char) (sc : Scan)
    (h : (scanWidth a sc).live) :
    scanWidth (a ++ tail) (sc.extend g) = (scanWidth a sc).extend g := by
  have hne : sc.rest ≠ [] := (scanWidth_back a sc h).1
  have hhead : (sc.extend g).rest.head? = sc.rest.head? := head_append sc.rest g hne
  by_cases hs : sc.rest.head? = some '*'
  · have e1 : scanWidth a sc = starArg a sc := by
      unfold scanWidth; rw [if_pos hs]
    have e2 : scanWidth (a ++ tail) (sc.extend g) = starArg (a ++ tail) (sc.extend g) := by
      unfold scanWidth; rw [hhead, if_pos hs]
    rw [e1] at h
    rw [e1, e2]
    exact starArg_append a tail g sc h
  · have e1 : scanWidth a sc = widthNumber sc := by
      unfold scanWidth; rw [if_neg hs]
    have e2 : scanWidth (a ++ tail) (sc.extend g) = widthNumber (sc.extend g) := by
      unfold scanWidth; rw [hhead, if_neg hs]
    rw [e1] at h
    rw [e1, e2]
    exact widthNumber_append g sc h

theorem afterDot_back (sc : Scan) (h : (afterDot sc).live) : sc.live := by
  unfold Scan.live afterDot at *
  refine ⟨?_, h.2⟩
  intro he
  apply h.1
  simp [he]

theorem precisionNumber_back (sc : Scan) (h : (precisionNumber sc).live) : sc.live := by
  unfold Scan.live precisionNumber at *
  refine ⟨?_, h.2⟩
  intro he
  apply h.1
  simp [he, parsenum]

theorem precisionNumber_append (g : List Char) (sc : Scan) (h : (precisionNumber sc).live) :
    precisionNumber (sc.extend g) = (precisionNumber sc).extend g := by
  unfold precisionNumber at h ⊢
  have hp : parsenum (sc.extend g).rest 0 false
      = { parsenum sc.rest 0 false with rest := (parsenum sc.rest 0 false).rest ++ g } :=
    parsenum_append g sc.rest 0 false h.1
  rw [hp]
  rfl

theorem scanPrecision_back (a : List GoValue) (sc : Scan) (h : (scanPrecision a sc).live) :
    sc.live := by
  unfold scanPrecision at h
  split at h
  · split at h
    · exact afterDot_back sc (argNumber_back _ _ (starArg_back a _ h).1)
    · exact afterDot_back sc (argNumber_back _ _ (precisionNumber_back _ h))
  · exact h

theorem afterDot_append (g : List Char) (sc : Scan) (hne : sc.rest ≠ []) :
    afterDot (sc.extend g) = (afterDot sc).extend g := by
  simp only [afterDot, Scan.extend, drop_one_append sc.rest g hne]

theorem scanPrecision_append (a tail : List GoValue) (htail : (a ++ tail).length = a.length + 1)
    (g : List Char) (hg : ']' ∉ g) (sc : Scan)
    (h : (scanPrecision a sc).live) (hst : precisionStable a.length sc = true) :
    scanPrecision (a ++ tail) (sc.extend g) = (scanPrecision a sc).extend g := by
  have hne : sc.rest ≠ [] := (scanPrecision_back a sc h).1
  have hhead : (sc.extend g).rest.head? = sc.rest.head? := head_append sc.rest g hne
  by_cases hd : sc.rest.head? = some '.'
  · have hst2 : argStable a.length (afterDot sc) = true := by
      unfold precisionStable at hst
      rw [if_pos hd] at hst
      exact hst
    by_cases hs : (argNumber a.length (afterDot sc)).rest.head? = some '*'
    · have e1 : scanPrecision a sc = starArg a (argNumber a.length (afterDot sc)) := by
        unfold scanPrecision; rw [if_pos hd, if_pos hs]
      rw [e1] at h
      have hfa := (starArg_back a _ h).1
      have ha := argNumber_append a.length g hg (afterDot sc) hfa hst2
      have hh : ((argNumber a.length (afterDot sc)).extend g).rest.head?
          = (argNumber a.length (afterDot sc)).rest.head? := head_append _ g hfa.1
      have e2 : scanPrecision (a ++ tail) (sc.extend g)
          = starArg (a ++ tail) ((argNumber a.length (afterDot sc)).extend g) := by
        unfold scanPrecision
        rw [hhead, if_pos hd, afterDot_append g sc hne, htail, ha, hh, if_pos hs]
      rw [e1, e2]
      exact starArg_append a tail g _ h
    · have e1 : scanPrecision a sc = precisionNumber (argNumber a.length (afterDot sc)) := by
        unfold scanPrecision; rw [if_pos hd, if_neg hs]
      rw [e1] at h
      have hfa := precisionNumber_back _ h
      have ha := argNumber_append a.length g hg (afterDot sc) hfa hst2
      have hh : ((argNumber a.length (afterDot sc)).extend g).rest.head?
          = (argNumber a.length (afterDot sc)).rest.head? := head_append _ g hfa.1
      have e2 : scanPrecision (a ++ tail) (sc.extend g)
          = precisionNumber ((argNumber a.length (afterDot sc)).extend g) := by
        unfold scanPrecision
        rw [hhead, if_pos hd, afterDot_append g sc hne, htail, ha, hh, if_neg hs]
      rw [e1, e2]
      exact precisionNumber_append g _ h
  · have e1 : scanPrecision a sc = sc := by
      unfold scanPrecision; rw [if_neg hd]
    have e2 : scanPrecision (a ++ tail) (sc.extend g) = sc.extend g := by
      unfold scanPrecision; rw [hhead, if_neg hd]
    rw [e1, e2]

theorem dropWhile_append_left (q : Char → Bool) (g : List Char) :
    ∀ (s : List Char), s.dropWhile q ≠ [] → (s ++ g).dropWhile q = s.dropWhile q ++ g := by
  intro s
  induction s with
  | nil => intro h; exact absurd rfl h
  | cons c s ih =>
    intro h
    rw [List.cons_append, List.dropWhile_cons, List.dropWhile_cons]
    rw [List.dropWhile_cons] at h
    by_cases hq : q c = true
    · simp only [hq, if_true] at h ⊢
      exact ih h
    · simp [hq]

theorem startScan_append (n : Nat) (s g : List Char) (h : (startScan n s).live) :
    startScan n (s ++ g) = (startScan n s).extend g := by
  unfold startScan Scan.extend
  rw [dropWhile_append_left isFlag g s h.1]

theorem finalIndex_back (n : Nat) (sc : Scan) (h : (finalIndex n sc).live) : sc.live := by
  unfold finalIndex at h
  split at h
  · exact h
  · exact argNumber_back n sc h

theorem finalIndex_append (n : Nat) (g : List Char) (hg : ']' ∉ g) (sc : Scan)
    (h : (finalIndex n sc).live) (hst : finalStable n sc = true) :
    finalIndex (n + 1) (sc.extend g) = (finalIndex n sc).extend g := by
  by_cases ha : sc.afterIndex = true
  · have e1 : finalIndex n sc = sc := by unfold finalIndex; rw [if_pos ha]
    have e2 : finalIndex (n + 1) (sc.extend g) = sc.extend g := by
      unfold finalIndex
      have : (sc.extend g).afterIndex = true := ha
      rw [if_pos this]
    rw [e1, e2]
  · have e1 : finalIndex n sc = argNumber n sc := by unfold finalIndex; rw [if_neg ha]
    have e2 : finalIndex (n + 1) (sc.extend g) = argNumber (n + 1) (sc.extend g) := by
      unfold finalIndex
      have : ¬ (sc.extend g).afterIndex = true := ha
      rw [if_neg this]
    have hst2 : argStable n sc = true := by
      unfold finalStable at hst
      simp only [Bool.or_eq_true] at hst
      rcases hst with h1 | h1
      · exact absurd h1 ha
      · exact h1
    rw [e1] at h
    rw [e1, e2]
    exact argNumber_append n g hg sc h hst2

/-- A directive whose scan ends on a verb, with stable operand indices and an
operand for every `*`, is scanned alike after appending text to the format and
one operand to the operands. -/
theorem scanDirective_append (a tail : List GoValue) (htail : (a ++ tail).length = a.length + 1)
    (n : Nat) (s g : List Char) (hg : ']' ∉ g)
    (h : (scanDirective a n s).live) (hst : scanStable a n s = true) :
    scanDirective (a ++ tail) n (s ++ g) = (scanDirective a n s).extend g := by
  unfold scanStable at hst
  simp only [Bool.and_eq_true] at hst
  obtain ⟨⟨hs0, hs2⟩, hs3⟩ := hst
  unfold scanDirective at h ⊢
  have h3 := finalIndex_back _ _ h
  have h2 := scanPrecision_back _ _ h3
  have h1 := scanWidth_back _ _ h2
  have h0 := argNumber_back _ _ h1
  rw [htail, startScan_append n s g h0, argNumber_append _ g hg _ h1 hs0,
    scanWidth_append a tail g _ h2, scanPrecision_append a tail htail g hg _ h3 hs2,
    finalIndex_append _ g hg _ h hs3]

/-! ## Lemmas on `doPrintf` -/

/-- A regular directive is printed by `Errorf`, after appending text and one
operand, as `Sprintf` prints it. -/
theorem printDirective_append (fm : Fmt) (w : Bool) (a tail : List GoValue) (p : pp)
    (text g : List Char) (plain : Bool) (sc : Scan) (verb : Char)
    (hh : sc.rest.head? = some verb)
    (hv : verb = '%' ∨ sc.good = false ∨ takesOperand a verb sc.argNum = true) :
    printDirective fm w (a ++ tail) p text plain (sc.extend g)
      = printDirective fm false a p text plain sc := by
  have hne : sc.rest ≠ [] := by
    intro he; rw [he] at hh; cases hh
  have hh2 : (sc.extend g).rest.head? = some verb := by
    rw [← hh]; exact head_append sc.rest g hne
  unfold printDirective
  simp only [hh, hh2]
  by_cases hpc : verb = '%'
  · simp only [hpc, if_true]
    rfl
  · simp only [hpc, if_false]
    by_cases hg : sc.good = true
    · have hg2 : (sc.extend g).good = true := hg
      simp only [hg, hg2, Bool.not_true, Bool.false_eq_true, if_false]
      rcases hv with h1 | h1 | h1
      · exact absurd h1 hpc
      · rw [hg] at h1; cases h1
      · unfold takesOperand at h1
        simp only [Bool.and_eq_true, decide_eq_true_eq] at h1
        obtain ⟨hw, hsome⟩ := h1
        obtain ⟨arg, harg⟩ := Option.isSome_iff_exists.1 hsome
        have harg2 : (a ++ tail).get? (sc.extend g).argNum = some arg :=
          get?_append_some a tail _ arg harg
        simp only [harg, harg2, hw, if_false]
        rfl
    · have hg2 : ¬ (sc.extend g).good = true := hg
      simp only [hg, hg2, Bool.not_false, if_true]
      rfl

theorem parsenum_rest_le :
    ∀ (s : List Char) (num : Nat) (isnum : Bool), (parsenum s num isnum).rest.length ≤ s.length := by
  intro s
  induction s with
  | nil => intro num isnum; simp [parsenum]
  | cons c s ih =>
    intro num isnum
    rw [parsenum]
    split
    · split
      · simp
      · exact Nat.le_succ_of_le (ih _ _)
    · exact Nat.le_refl _

theorem argNumber_rest_le (n : Nat) (sc : Scan) :
    (argNumber n sc).rest.length ≤ sc.rest.length := by
  unfold argNumber
  split
  · split <;> simp
  · exact Nat.le_refl _

theorem starArg_rest_le (a : List GoValue) (sc : Scan) :
    (starArg a sc).rest.length ≤ sc.rest.length := by
  unfold starArg
  split <;> simp

theorem scanWidth_rest_le (a : List GoValue) (sc : Scan) :
    (scanWidth a sc).rest.length ≤ sc.rest.length := by
  unfold scanWidth
  split
  · exact starArg_rest_le a sc
  · exact parsenum_rest_le _ _ _

theorem scanPrecision_rest_le (a : List GoValue) (sc : Scan) :
    (scanPrecision a sc).rest.length ≤ sc.rest.length := by
  have h1 : (afterDot sc).rest.length ≤ sc.rest.length := by simp [afterDot]
  have h2 := argNumber_rest_le a.length (afterDot sc)
  unfold scanPrecision
  split
  · split
    · exact Nat.le_trans (starArg_rest_le a _) (Nat.le_trans h2 h1)
    · exact Nat.le_trans (parsenum_rest_le _ _ _) (Nat.le_trans h2 h1)
  · exact Nat.le_refl _

theorem finalIndex_rest_le (n : Nat) (sc : Scan) :
    (finalIndex n sc).rest.length ≤ sc.rest.length := by
  unfold finalIndex
  split
  · exact Nat.le_refl _
  · exact argNumber_rest_le n sc

theorem scanDirective_rest_le (a : List GoValue) (n : Nat) (s : List Char) :
    (scanDirective a n s).rest.length ≤ s.length := by
  unfold scanDirective
  have h0 : (startScan n s).rest.length ≤ s.length := by
    unfold startScan
    exact (List.dropWhile_sublist _).length_le
  exact Nat.le_trans (finalIndex_rest_le _ _) (Nat.le_trans (scanPrecision_rest_le _ _)
    (Nat.le_trans (scanWidth_rest_le _ _) (Nat.le_trans (argNumber_rest_le _ _) h0)))

theorem directiveText_length_le (rest : List Char) (sc : Scan) :
    (directiveText rest sc).length ≤ rest.length := by
  unfold directiveText
  rw [List.length_take]
  exact Nat.min_le_right _ _

theorem directive_append (fm : Fmt) (w : Bool) (a tail : List GoValue)
    (htail : (a ++ tail).length = a.length + 1) (p : pp) (rest g : List Char)
    (hg : ']' ∉ g) (hreg : directiveRegular a rest p = true) :
    directive fm w (a ++ tail) (rest ++ g) p = directive fm false a rest p
      ∧ directiveText (rest ++ g) (scanDirective (a ++ tail) p.argNum (rest ++ g))
          = directiveText rest (scanDirective a p.argNum rest) := by
  unfold directiveRegular at hreg
  simp only [Bool.and_eq_true] at hreg
  obtain ⟨⟨hst, hstars⟩, hverb⟩ := hreg
  cases hh : (scanDirective a p.argNum rest).rest.head? with
  | none => rw [hh] at hverb; cases hverb
  | some verb =>
    rw [hh] at hverb
    have hne : (scanDirective a p.argNum rest).rest ≠ [] := by
      intro he; rw [he] at hh; cases hh
    have hlive : (scanDirective a p.argNum rest).live := ⟨hne, hstars⟩
    have hsc := scanDirective_append a tail htail p.argNum rest g hg hlive hst
    have hle := scanDirective_rest_le a p.argNum rest
    have hpos : 0 < (scanDirective a p.argNum rest).rest.length := List.length_pos.2 hne
    have htext : directiveText (rest ++ g) ((scanDirective a p.argNum rest).extend g)
        = directiveText rest (scanDirective a p.argNum rest) := by
      unfold directiveText Scan.extend
      simp only [List.length_append]
      have e : rest.length + g.length
            - ((scanDirective a p.argNum rest).rest.length + g.length) + 1
          = rest.length - (scanDirective a p.argNum rest).rest.length + 1 := by omega
      rw [e, List.take_append_of_le_length (by omega)]
    have hplain : isPlain (rest ++ g) ((scanDirective a p.argNum rest).extend g)
        = isPlain rest (scanDirective a p.argNum rest) := by
      unfold isPlain Scan.extend
      simp only [List.length_append]
      by_cases hc : rest.length = (scanDirective a p.argNum rest).rest.length
      · simp [hc]
      · have : ¬ rest.length + g.length
            = (scanDirective a p.argNum rest).rest.length + g.length := by omega
        simp [hc, this]
    have hv : verb = '%' ∨ (scanDirective a p.argNum rest).good = false
        ∨ takesOperand a verb (scanDirective a p.argNum rest).argNum = true := by
      simp only [Bool.or_eq_true, decide_eq_true_eq, Bool.not_eq_true'] at hverb
      rcases hverb with (h1 | h1) | h1
      · exact Or.inl h1
      · exact Or.inr (Or.inl h1)
      · exact Or.inr (Or.inr h1)
    refine ⟨?_, ?_⟩
    · unfold directive
      rw [hsc, htext, hplain]
      exact printDirective_append fm w a tail p _ g _ _ verb hh hv
    · rw [hsc, htext]

/-- A format that is regular for its operands is printed by `Errorf`, when text
follows it and one operand follows its operands, as `Sprintf` prints it. -/
theorem doPrintf_append (fm : Fmt) (w : Bool) (a tail : List GoValue)
    (htail : (a ++ tail).length = a.length + 1) (g : List Char) (hg : ']' ∉ g) :
    ∀ (f : List Char) (skip : Nat) (p p2 : pp), skip ≤ f.length →
      regularRun fm a skip f p = true →
      doPrintf fm false a skip f p = .ok p2 →
      doPrintf fm w (a ++ tail) skip (f ++ g) p = doPrintf fm w (a ++ tail) 0 g p2 := by
  intro f
  induction f with
  | nil =>
    intro skip p p2 hskip _ h
    have h0 : skip = 0 := by simpa using hskip
    subst h0
    rw [doPrintf] at h
    cases h
    rfl
  | cons c rest ih =>
    intro skip p p2 hskip hreg h
    cases skip with
    | succ k =>
      rw [doPrintf] at h
      rw [regularRun] at hreg
      rw [List.cons_append, doPrintf]
      exact ih k p p2 (by simpa using hskip) hreg h
    | zero =>
      rw [doPrintf] at h
      rw [regularRun] at hreg
      rw [List.cons_append, doPrintf]
      by_cases hc : c = '%'
      · simp only [hc, ne_eq, not_true_eq_false, if_false, Bool.and_eq_true] at h hreg ⊢
        obtain ⟨hdreg, hrest⟩ := hreg
        obtain ⟨hdir, htext⟩ := directive_append fm w a tail htail p rest g hg hdreg
        cases hd : directive fm false a rest p with
        | fault why => rw [hd] at h; cases h
        | ok p1 =>
          rw [hd] at h hrest
          rw [hdir, hd]
          simp only [htext]
          exact ih _ p1 p2 (directiveText_length_le _ _) hrest h
      · simp only [ne_eq, hc, not_false_eq_true, if_true] at h hreg ⊢
        exact ih 0 _ p2 (Nat.zero_le _) hreg h

/-- The scan of a directive whose verb comes right after `%`. -/
theorem scanDirective_plain (a : List GoValue) (n : Nat) (c : Char) (t : List Char)
    (hflag : isFlag c = false) (hb : c ≠ '[') (hs : c ≠ '*') (hd : c.isDigit = false)
    (hdot : c ≠ '.') :
    scanDirective a n (c :: t)
      = { argNum := n, rest := c :: t, afterIndex := false, reordered := false, good := true,
          stars := [] } := by
  have h0 : startScan n (c :: t)
      = { argNum := n, rest := c :: t, afterIndex := false, reordered := false, good := true,
          stars := [] } := by
    simp [startScan, List.dropWhile_cons, hflag]
  have hnum : parsenum (c :: t) 0 false = { num := 0, isnum := false, rest := c :: t } := by
    rw [parsenum]; simp [hd]
  unfold scanDirective
  rw [h0]
  simp [argNumber, scanWidth, widthNumber, scanPrecision, finalIndex, hb, hs, hdot, hnum]

theorem scanStable_plain (a : List GoValue) (n : Nat) (c : Char) (t : List Char)
    (hflag : isFlag c = false) (hb : c ≠ '[') (hs : c ≠ '*') (hd : c.isDigit = false)
    (hdot : c ≠ '.') :
    scanStable a n (c :: t) = true := by
  have h0 : startScan n (c :: t)
      = { argNum := n, rest := c :: t, afterIndex := false, reordered := false, good := true,
          stars := [] } := by
    simp [startScan, List.dropWhile_cons, hflag]
  have hnum : parsenum (c :: t) 0 false = { num := 0, isnum := false, rest := c :: t } := by
    rw [parsenum]; simp [hd]
  unfold scanStable
  rw [h0]
  simp [argStable, precisionStable, finalStable, argNumber, scanWidth, widthNumber,
    scanPrecision, hb, hs, hdot, hnum]

theorem directiveText_plain (c : Char) (t : List Char) (sc : Scan) (h : sc.rest = c :: t) :
    directiveText (c :: t) sc = [c] ∧ isPlain (c :: t) sc = true := by
  unfold directiveText isPlain
  rw [h]
  simp

theorem doPrintf_wrappedErrs (fm : Fmt) (a : List GoValue) :
    ∀ (f : List Char) (skip : Nat) (p p2 : pp),
      doPrintf fm false a skip f p = .ok p2 → p2.wrappedErrs = p.wrappedErrs := by
  intro f
  induction f with
  | nil =>
    intro skip p p2 h
    rw [doPrintf] at h
    cases h
    rfl
  | cons c rest ih =>
    intro skip p p2 h
    cases skip with
    | succ k =>
      rw [doPrintf] at h
      exact ih k p p2 h
    | zero =>
      rw [doPrintf] at h
      by_cases hc : c = '%'
      · simp only [hc, ne_eq, not_true_eq_false, if_false] at h
        cases hd : directive fm false a rest p with
        | fault why => rw [hd] at h; cases h
        | ok p1 =>
          rw [hd] at h
          rw [ih _ p1 p2 h]
          unfold directive printDirective at hd
          revert hd
          generalize scanDirective a p.argNum rest = sc
          intro hd
          split at hd
          · cases hd; rfl
          · split at hd
            · cases hd; rfl
            · split at hd
              · cases hd; rfl
              · split at hd
                · cases hd; rfl
                · split at hd
                  · simp only [Bool.false_eq_true, if_false] at hd
                    cases hd; rfl
                  · cases hd; rfl
      · simp only [ne_eq, hc, not_false_eq_true, if_true] at h
        exact ih 0 { p with buf := p.buf ++ String.singleton c } p2 h

theorem Sprintf_of_regular (fm : Fmt) (f : String) (a : List GoValue) (e : GoError) (p : pp)
    (h : doPrintf fm false a 0 f.data newPrinter = .ok p) (harg : handsOver e a p = true) :
    Sprintf fm f a = .ok p.buf := by
  have hextra : (!p.reordered && decide (p.argNum < a.length)) = false := by
    unfold handsOver at harg
    simp only [Bool.or_eq_true, Bool.and_eq_true, decide_eq_true_eq] at harg
    rcases harg with h1 | ⟨hr, -⟩
    · rw [h1]; simp
    · rw [hr]; rfl
  unfold Sprintf finishPrintf
  rw [h]
  simp only [hextra, Bool.false_eq_true, if_false]

/-- The directive `%w` of `Errorf` on an error operand. -/
theorem directive_w (fm : Fmt) (b : List GoValue) (e : GoError) (p : pp)
    (hget : b.get? p.argNum = some (GoValue.err e)) :
    directive fm true b ['w'] p
      = .ok { p with buf := p.buf ++ e.Error, argNum := p.argNum + 1,
                     wrappedErrs := p.wrappedErrs ++ [p.argNum] } := by
  have hsc := scanDirective_plain b p.argNum 'w' []
    (by decide) (by decide) (by decide) (by decide) (by decide)
  have htp := directiveText_plain 'w' [] (scanDirective b p.argNum ['w']) (by rw [hsc])
  unfold directive
  rw [htp.1, htp.2, hsc]
  rw [List.get?_eq_getElem?] at hget
  simp [printDirective, hget, noteScan]

theorem doPrintf_one_plain (fm : Fmt) (w : Bool) (a : List GoValue) (c : Char) (p p2 : pp)
    (hflag : isFlag c = false) (hb : c ≠ '[') (hs : c ≠ '*') (hd : c.isDigit = false)
    (hdot : c ≠ '.') (hdir : directive fm w a [c] p = .ok p2) :
    doPrintf fm w a 0 ['%', c] p = .ok p2 := by
  have hsc := scanDirective_plain a p.argNum c [] hflag hb hs hd hdot
  have htp := directiveText_plain c [] (scanDirective a p.argNum [c]) (by rw [hsc])
  rw [doPrintf]
  simp only [ne_eq, not_true_eq_false, if_false, hdir, htp.1, List.length_singleton]
  rw [doPrintf, doPrintf]

theorem doPrintf_tail_w (fm : Fmt) (b : List GoValue) (e : GoError) (p : pp)
    (hget : b.get? p.argNum = some (GoValue.err e)) :
    doPrintf fm true b 0 ": %w".data p
      = .ok { p with buf := p.buf ++ ": " ++ e.Error, argNum := p.argNum + 1,
                     wrappedErrs := p.wrappedErrs ++ [p.argNum] } := by
  have htail : ": %w".data = [':', ' ', '%', 'w'] := by decide
  have hcolon : (':' : Char) ≠ '%' := by decide
  have hspace : (' ' : Char) ≠ '%' := by decide
  have hw := directive_w fm b e
    { p with buf := p.buf ++ String.singleton ':' ++ String.singleton ' ' } hget
  have hbuf : p.buf ++ String.singleton ':' ++ String.singleton ' ' ++ e.Error
      = p.buf ++ ": " ++ e.Error := by
    apply String.ext
    simp [String.data_append, String.singleton]
  rw [htail, doPrintf, if_pos hcolon, doPrintf, if_pos hspace,
    doPrintf_one_plain fm true _ 'w' _ _ (by decide) (by decide) (by decide) (by decide)
      (by decide) hw]
  simp only [hbuf]

/-- The operand that the appended `%w` takes is the error to wrap. -/
theorem handsOver_get (e : GoError) (a : List GoValue) (p : pp)
    (h : handsOver e a p = true) :
    (a ++ [GoValue.err e]).get? p.argNum = some (GoValue.err e)
      ∧ (!p.reordered && decide (p.argNum + 1 < (a ++ [GoValue.err e]).length)) = false := by
  unfold handsOver at h
  simp only [Bool.or_eq_true, Bool.and_eq_true, decide_eq_true_eq] at h
  rcases h with h | ⟨hr, hget⟩
  · refine ⟨?_, ?_⟩
    · rw [h, List.get?_eq_getElem?, List.getElem?_append_right (Nat.le_refl _)]
      simp
    · rw [h]
      simp
  · refine ⟨get?_append_some a _ _ _ hget, ?_⟩
    rw [hr]
    rfl

/-- Wrap on a format that is regular for its operands. -/
theorem Wrap_of_regular (fm : Fmt) (f : String) (a : List GoValue) (e : GoError) (p : pp)
    (hreg : regularRun fm a 0 f.data newPrinter = true)
    (h : doPrintf fm false a 0 f.data newPrinter = .ok p) (harg : handsOver e a p = true) :
    Wrap fm (some e) f a = .ok (some (.wrapError (p.buf ++ ": " ++ e.Error) e)) := by
  have hrun := doPrintf_append fm true a [GoValue.err e] (by simp) ": %w".data (by decide)
    f.data 0 newPrinter p (Nat.zero_le _) hreg h
  have hd : (f ++ ": %w").data = f.data ++ ": %w".data := String.data_append _ _
  have hwrapped : p.wrappedErrs = [] := doPrintf_wrappedErrs fm a f.data 0 newPrinter p h
  obtain ⟨hgetw, hextra⟩ := handsOver_get e a p harg
  unfold Wrap Errorf
  simp only [List.nil_append, hd, hrun, doPrintf_tail_w fm _ e p hgetw, finishPrintf, hwrapped,
    hextra, Bool.false_eq_true, if_false, hgetw]

theorem singleton_append_mk (c : Char) (cs : List Char) :
    String.singleton c ++ String.mk cs = String.mk (c :: cs) := by
  apply String.ext
  simp [String.data_append, String.singleton]

theorem doPrintf_text (fm : Fmt) (w : Bool) (a : List GoValue) (f : List Char)
    (hf : '%' ∉ f) :
    ∀ (g : List Char) (p : pp),
      doPrintf fm w a 0 (f ++ g) p
        = doPrintf fm w a 0 g { p with buf := p.buf ++ String.mk f } := by
  induction f with
  | nil =>
    intro g p
    have : String.mk [] = "" := rfl
    simp [this, string_append_empty]
  | cons c rest ih =>
    intro g p
    have hc : c ≠ '%' := fun h => hf (by simp [h])
    have hrest : '%' ∉ rest := fun h => hf (List.mem_cons_of_mem _ h)
    rw [List.cons_append, doPrintf, if_pos hc,
      ih hrest g { p with buf := p.buf ++ String.singleton c }]
    simp [String.append_assoc, singleton_append_mk]

theorem regularRun_text (fm : Fmt) (a : List GoValue) (f : List Char) (hf : '%' ∉ f) :
    ∀ (g : List Char) (p : pp),
      regularRun fm a 0 (f ++ g) p
        = regularRun fm a 0 g { p with buf := p.buf ++ String.mk f } := by
  induction f with
  | nil =>
    intro g p
    have : String.mk [] = "" := rfl
    simp [this, string_append_empty]
  | cons c rest ih =>
    intro g p
    have hc : c ≠ '%' := fun h => hf (by simp [h])
    have hrest : '%' ∉ rest := fun h => hf (List.mem_cons_of_mem _ h)
    rw [List.cons_append, regularRun, if_pos hc,
      ih hrest g { p with buf := p.buf ++ String.singleton c }]
    simp [String.append_assoc, singleton_append_mk]

/-- A plain directive on an operand that `printArg` prints. -/
theorem directive_plain (fm : Fmt) (w : Bool) (a : List GoValue) (c : Char) (p : pp)
    (arg : GoValue) (out : String)
    (hflag : isFlag c = false) (hb : c ≠ '[') (hs : c ≠ '*') (hd : c.isDigit = false)
    (hdot : c ≠ '.') (hv : c ≠ '%') (hw : c ≠ 'w')
    (hget : a.get? p.argNum = some arg) (hout : printArg arg c = some out) :
    directive fm w a [c] p = .ok { p with buf := p.buf ++ out, argNum := p.argNum + 1 } := by
  have hsc := scanDirective_plain a p.argNum c [] hflag hb hs hd hdot
  have htp := directiveText_plain c [] (scanDirective a p.argNum [c]) (by rw [hsc])
  unfold directive
  rw [htp.1, htp.2, hsc]
  rw [List.get?_eq_getElem?] at hget
  simp [printDirective, hget, noteScan, hv, hw, hout]

theorem directiveRegular_plain (a : List GoValue) (c : Char) (p : pp) (arg : GoValue)
    (hflag : isFlag c = false) (hb : c ≠ '[') (hs : c ≠ '*') (hd : c.isDigit = false)
    (hdot : c ≠ '.') (hw : c ≠ 'w') (hget : a.get? p.argNum = some arg) :
    directiveRegular a [c] p = true := by
  have hsc := scanDirective_plain a p.argNum c [] hflag hb hs hd hdot
  have hst := scanStable_plain a p.argNum c [] hflag hb hs hd hdot
  unfold directiveRegular
  rw [hst, hsc]
  rw [List.get?_eq_getElem?] at hget
  simp [hw, hget, takesOperand]

/-- The run of `doPrintf` on literal text followed by one plain directive. -/
theorem doPrintf_text_verb (fm : Fmt) (w : Bool) (pre : List Char) (c : Char)
    (arg : GoValue) (out : String) (hpre : '%' ∉ pre)
    (hflag : isFlag c = false) (hb : c ≠ '[') (hs : c ≠ '*') (hd : c.isDigit = false)
    (hdot : c ≠ '.') (hv : c ≠ '%') (hw : c ≠ 'w') (hout : printArg arg c = some out) :
    doPrintf fm w [arg] 0 (pre ++ ['%', c]) newPrinter
      = .ok { newPrinter with buf := String.mk pre ++ out, argNum := 1 } := by
  rw [doPrintf_text fm w [arg] pre hpre]
  have hdir := directive_plain fm w [arg] c
    { newPrinter with buf := newPrinter.buf ++ String.mk pre } arg out
    hflag hb hs hd hdot hv hw rfl hout
  rw [doPrintf_one_plain fm w [arg] c _ _ hflag hb hs hd hdot hdir]
  simp [newPrinter, string_empty_append]

theorem regularRun_text_verb (fm : Fmt) (pre : List Char) (c : Char)
    (arg : GoValue) (out : String) (hpre : '%' ∉ pre)
    (hflag : isFlag c = false) (hb : c ≠ '[') (hs : c ≠ '*') (hd : c.isDigit = false)
    (hdot : c ≠ '.') (hv : c ≠ '%') (hw : c ≠ 'w') (hout : printArg arg c = some out) :
    regularRun fm [arg] 0 (pre ++ ['%', c]) newPrinter = true := by
  rw [regularRun_text fm [arg] pre hpre]
  have hdir := directive_plain fm false [arg] c
    { newPrinter with buf := newPrinter.buf ++ String.mk pre } arg out
    hflag hb hs hd hdot hv hw rfl hout
  have hreg := directiveRegular_plain [arg] c
    { newPrinter with buf := newPrinter.buf ++ String.mk pre } arg
    hflag hb hs hd hdot hw rfl
  have hsc := scanDirective_plain [arg] newPrinter.argNum c [] hflag hb hs hd hdot
  have htp := directiveText_plain c [] (scanDirective [arg] newPrinter.argNum [c]) (by rw [hsc])
  rw [regularRun]
  simp only [ne_eq, not_true_eq_false, if_false, hreg, hdir, Bool.true_and, htp.1,
    List.length_singleton]
  rw [regularRun, regularRun]

theorem regularRun_literal (fm : Fmt) (a : List GoValue) (f : List Char) (hf : '%' ∉ f)
    (p : pp) : regularRun fm a 0 f p = true := by
  have := regularRun_text fm a f hf [] p
  rw [List.append_nil] at this
  rw [this, regularRun]

/-- Wrap on a format made of literal text only. -/
theorem Wrap_literal (fm : Fmt) (f : String) (e : GoError) (hf : '%' ∉ f.data) :
    Wrap fm (some e) f [] = .ok (some (.wrapError (f ++ ": " ++ e.Error) e)) := by
  have hrun : doPrintf fm false [] 0 f.data newPrinter = .ok { newPrinter with buf := f } := by
    have := doPrintf_text fm false [] f.data hf [] newPrinter
    rw [List.append_nil] at this
    rw [this, doPrintf]
    simp [newPrinter, string_empty_append]
  exact Wrap_of_regular fm f [] e _ (regularRun_literal fm [] f.data hf newPrinter) hrun rfl

/-- Wrap on literal text followed by `%s`, with a string operand. -/
theorem Wrap_text_s (fm : Fmt) (f : String) (pre : List Char) (hpre : '%' ∉ pre)
    (hf : f.data = pre ++ ['%', 's']) (e : GoError) (x : String) :
    ∃ w : GoError, Wrap fm (some e) f [GoValue.str x] = .ok (some w)
      ∧ Unwrap (some w) = some e := by
  have hrun := doPrintf_text_verb fm false pre 's' (GoValue.str x) x hpre
    (by decide) (by decide) (by decide) (by decide) (by decide) (by decide) (by decide)
    (by simp [printArg])
  have hreg := regularRun_text_verb fm pre 's' (GoValue.str x) x hpre
    (by decide) (by decide) (by decide) (by decide) (by decide) (by decide) (by decide)
    (by simp [printArg])
  rw [← hf] at hrun hreg
  exact ⟨_, Wrap_of_regular fm f [GoValue.str x] e _ hreg hrun rfl, rfl⟩

/-! ## Lemmas on `count` -/

theorem wrapInt_of_isGoInt (x : Int) (h : IsGoInt x) : wrapInt x = x := by
  unfold IsGoInt at h
  unfold wrapInt
  omega

theorem count_bounds {ρ : Type} (l : Landlord ρ) (r : ρ)
    (hmin : IsGoInt l.minEvictions) (hmax : IsGoInt l.maxEvictions)
    (hlt : l.minEvictions < l.maxEvictions)
    (hdraw : IntnInRange l.rand r (countBound l)) :
    l.minEvictions ≤ (count l r).1 ∧ (count l r).1 < l.maxEvictions := by
  unfold IntnInRange countBound at hdraw
  unfold IsGoInt at hmin hmax
  simp only [count]
  generalize (l.rand.Intn r (wrapInt (l.maxEvictions - l.minEvictions))).1 = v at hdraw
  unfold wrapInt at hdraw ⊢
  omega

/-! ## Lemmas on the shuffle -/

theorem perm_cons_set {α : Type} (x : α) :
    ∀ (t : List α) (k : Nat) (y : α), t.get? k = some y → (y :: t.set k x).Perm (x :: t) := by
  intro t
  induction t with
  | nil => intro k y h; simp at h
  | cons z t ih =>
    intro k y h
    cases k with
    | zero =>
      have hzy : z = y := by simpa using h
      rw [← hzy]
      simpa using List.Perm.swap x z t
    | succ k =>
      have h2 : t.get? k = some y := by simpa using h
      have := ih k y h2
      rw [List.set_cons_succ]
      exact (List.Perm.swap z y (t.set k x)).trans
        ((this.cons z).trans (List.Perm.swap x z t))

theorem perm_set_set {α : Type} :
    ∀ (l : List α) (i j : Nat) (x y : α), l.get? i = some x → l.get? j = some y →
      ((l.set i y).set j x).Perm l := by
  intro l
  induction l with
  | nil => intro i j x y h; simp at h
  | cons z t ih =>
    intro i j x y hi hj
    cases i with
    | zero =>
      have hzx : z = x := by simpa using hi
      rw [← hzx]
      cases j with
      | zero =>
        have hzy : z = y := by simpa using hj
        rw [← hzy]
        simp
      | succ j =>
        have hj2 : t.get? j = some y := by simpa using hj
        simpa using perm_cons_set z t j y hj2
    | succ i =>
      have hi2 : t.get? i = some x := by simpa using hi
      cases j with
      | zero =>
        have hzy : z = y := by simpa using hj
        rw [← hzy]
        simpa using perm_cons_set z t i x hi2
      | succ j =>
        have hj2 : t.get? j = some y := by simpa using hj
        simpa using (ih i j x y hi2 hj2).cons z

theorem swap_ok {α : Type} (l : List α) (i j : Int)
    (hi : 0 ≤ i ∧ i < l.length) (hj : 0 ≤ j ∧ j < l.length) :
    ∃ l2, swap l i j = .ok l2 ∧ l2.Perm l := by
  have hi2 : i.toNat < l.length := by omega
  have hj2 : j.toNat < l.length := by omega
  have gi : l.get? i.toNat = some (l.get ⟨i.toNat, hi2⟩) := List.get?_eq_get hi2
  have gj : l.get? j.toNat = some (l.get ⟨j.toNat, hj2⟩) := List.get?_eq_get hj2
  refine ⟨_, ?_, perm_set_set l i.toNat j.toNat _ _ gi gj⟩
  unfold swap
  rw [if_pos ⟨hi.1, hj.1⟩, gi, gj]

theorem applySwaps_ok {α : Type} (swaps : List (Int × Int)) :
    ∀ (l : List α), SwapsInRange l.length swaps →
      ∃ l2, applySwaps l swaps = .ok l2 ∧ l2.Perm l := by
  induction swaps with
  | nil => intro l _; exact ⟨l, rfl, List.Perm.refl l⟩
  | cons p rest ih =>
    intro l h
    obtain ⟨i, j⟩ := p
    have hp := h (i, j) (List.mem_cons_self _ _)
    obtain ⟨l1, h1, p1⟩ := swap_ok l i j hp.1 hp.2
    have hrest : SwapsInRange l1.length rest := by
      intro q hq
      rw [p1.length_eq]
      exact h q (List.mem_cons_of_mem _ hq)
    obtain ⟨l2, h2, p2⟩ := ih l1 hrest
    refine ⟨l2, ?_, p2.trans p1⟩
    simp only [applySwaps, h1, h2]

theorem swap_map {α β : Type} (f : α → β) (l : List α) (i j : Int) :
    swap (l.map f) i j = Outcome.map (List.map f) (swap l i j) := by
  unfold swap
  by_cases h : 0 ≤ i ∧ 0 ≤ j
  · simp only [if_pos h, List.get?_eq_getElem?, List.getElem?_map]
    cases hi : l[i.toNat]? <;> cases hj : l[j.toNat]? <;>
      simp [Outcome.map, List.map_set]
  · simp [if_neg h, Outcome.map]

theorem applySwaps_map {α β : Type} (f : α → β) (swaps : List (Int × Int)) :
    ∀ (l : List α),
      applySwaps (l.map f) swaps = Outcome.map (List.map f) (applySwaps l swaps) := by
  induction swaps with
  | nil => intro l; rfl
  | cons p rest ih =>
    intro l
    obtain ⟨i, j⟩ := p
    simp only [applySwaps, swap_map]
    cases h : swap l i j with
    | fault why => simp [Outcome.map]
    | ok l1 => simp [Outcome.map, ih l1]

/-! ## Lemmas on the dispatch loop -/

theorem dispatch_ok (l : List Node) :
    ∀ (n i : Nat), i + n ≤ l.length →
      dispatch l i n = .ok (((l.drop i).take n).map Effect.go) := by
  intro n
  induction n with
  | zero => intro i _; simp [dispatch]
  | succ n ih =>
    intro i h
    have hi : i < l.length := by omega
    have hget : l.get? i = some (l.get ⟨i, hi⟩) := List.get?_eq_get hi
    have hdrop : l.drop i = l.get ⟨i, hi⟩ :: l.drop (i + 1) := by
      simp
    rw [dispatch, hget]
    simp only [ih (i + 1) (by omega)]
    rw [hdrop, List.take_succ_cons, List.map_cons]

theorem spawned_append (fx gx : List Effect) :
    spawned (fx ++ gx) = spawned fx ++ spawned gx := by
  induction fx with
  | nil => rfl
  | cons e fx ih => cases e <;> simp [spawned, ih]

theorem spawned_map_go (ns : List Node) : spawned (ns.map Effect.go) = ns := by
  induction ns with
  | nil => rfl
  | cons n ns ih => simp [spawned, ih]

theorem randCalls_append (fx gx : List Effect) :
    randCalls (fx ++ gx) = randCalls fx ++ randCalls gx := by
  induction fx with
  | nil => rfl
  | cons e fx ih => cases e <;> simp [randCalls, ih]

theorem randCalls_map_go (ns : List Node) : randCalls (ns.map Effect.go) = [] := by
  induction ns with
  | nil => rfl
  | cons n ns ih => simp [randCalls, ih]

/-! ## The two paths of `sweep` -/

theorem Wrap_plain_listing (fm : Fmt) (err : GoError) :
    Wrap fm (some err) "error listing nodes" []
      = .ok (some (.wrapError ("error listing nodes: " ++ err.Error) err)) := by
  have h := Wrap_literal fm "error listing nodes" err (by decide)
  rw [h]
  have e : "error listing nodes" ++ ": " = "error listing nodes: " := by decide
  rw [e]

theorem sweep_list_error {ρ : Type} (fm : Fmt) (l : Landlord ρ) (cause : GoError) (r : ρ) :
    sweep fm l (.error cause) r
      = .ok { err := some (.wrapError ("error listing nodes: " ++ cause.Error) cause),
              effects := [Effect.log .info
                  "Sweeping nodes with min evictions %d and max evictions %d",
                Effect.randIntn (countBound l),
                Effect.log .info "Generated an eviction count of %d", Effect.listNodes],
              randState := stateAfterCount l r } := by
  simp [sweep, Wrap_plain_listing, count, countBound, stateAfterCount]

theorem clampCount_toNat_le (c : Int) (n : Nat) : (clampCount c n).toNat ≤ n := by
  unfold clampCount
  split <;> omega

theorem sweep_listed {ρ : Type} (fm : Fmt) (l : Landlord ρ) (nodes : List Node) (r : ρ)
    (shuffled : List Node)
    (hlen : shuffled.length = (filterNodes nodes).length)
    (hsh : applySwaps (filterNodes nodes)
      (l.rand.Shuffle (stateAfterCount l r) (filterNodes nodes).length).1 = .ok shuffled) :
    ∃ res, sweep fm l (.ok nodes) r = .ok res
      ∧ res.err = none
      ∧ spawned res.effects
          = shuffled.take (clampCount (count l r).1 (filterNodes nodes).length).toNat
      ∧ randCalls res.effects
          = [Effect.randIntn (countBound l), Effect.randShuffle (filterNodes nodes).length] := by
  have hk : 0 + (clampCount (count l r).1 (filterNodes nodes).length).toNat ≤ shuffled.length := by
    rw [hlen, Nat.zero_add]
    exact clampCount_toNat_le _ _
  have hd := dispatch_ok shuffled _ 0 hk
  unfold stateAfterCount at hsh
  simp only [sweep, hsh, hd]
  refine ⟨_, rfl, rfl, ?_, ?_⟩
  · simp only [spawned_append, spawned_map_go, List.drop_zero]
    split <;> simp [spawned, count]
  · simp only [randCalls_append, randCalls_map_go]
    split <;> simp [randCalls, count, countBound]

theorem sweep_shuffle_fault {ρ : Type} (fm : Fmt) (l : Landlord ρ) (nodes : List Node) (r : ρ)
    (why : String)
    (hsh : applySwaps (filterNodes nodes)
      (l.rand.Shuffle (stateAfterCount l r) (filterNodes nodes).length).1 = .fault why) :
    sweep fm l (.ok nodes) r = .fault why := by
  unfold stateAfterCount at hsh
  simp only [sweep, hsh]

/-- The shuffle of `sweep`, traced on the eligible list with its positions
attached: the shuffled list is a rearrangement of the positions. -/
theorem shuffle_tagged {ρ : Type} (l : Landlord ρ) (nodes : List Node) (r : ρ)
    (hsh : ShuffleInRange l.rand (stateAfterCount l r) (filterNodes nodes).length) :
    ∃ tagged : List (Nat × Node), tagged.Perm (filterNodes nodes).enum
      ∧ applySwaps (filterNodes nodes)
          (l.rand.Shuffle (stateAfterCount l r) (filterNodes nodes).length).1
        = .ok (tagged.map Prod.snd) := by
  have hr : SwapsInRange ((filterNodes nodes).enum.length : Nat)
      (l.rand.Shuffle (stateAfterCount l r) (filterNodes nodes).length).1 := by
    rw [List.enum_length]
    exact hsh
  obtain ⟨tagged, h1, p1⟩ := applySwaps_ok _ (filterNodes nodes).enum hr
  refine ⟨tagged, p1, ?_⟩
  have := applySwaps_map Prod.snd
    (l.rand.Shuffle (stateAfterCount l r) (filterNodes nodes).length).1 (filterNodes nodes).enum
  rw [List.enum_map_snd, h1] at this
  exact this

theorem swap_length {α : Type} (l l2 : List α) (i j : Int) (h : swap l i j = .ok l2) :
    l2.length = l.length := by
  unfold swap at h
  split at h
  · split at h
    · cases h
      simp
    · cases h
  · cases h

theorem applySwaps_length {α : Type} (swaps : List (Int × Int)) :
    ∀ (l l2 : List α), applySwaps l swaps = .ok l2 → l2.length = l.length := by
  induction swaps with
  | nil =>
    intro l l2 h
    cases h
    rfl
  | cons p rest ih =>
    intro l l2 h
    obtain ⟨i, j⟩ := p
    simp only [applySwaps] at h
    cases h1 : swap l i j with
    | fault why => rw [h1] at h; cases h
    | ok l1 =>
      rw [h1] at h
      rw [ih l1 l2 h, swap_length l l1 i j h1]

/-- The calls to the random source of a sweep that returns. -/
theorem sweep_randCalls {ρ : Type} (fm : Fmt) (l : Landlord ρ) (listed : Except GoError (List Node))
    (r : ρ) (res : SweepResult ρ) (h : sweep fm l listed r = .ok res) :
    randCalls res.effects = Effect.randIntn (countBound l) ::
      shuffleCallsAfter listed := by
  cases listed with
  | error cause =>
    rw [sweep_list_error] at h
    cases h
    rfl
  | ok nodes =>
    cases hs : applySwaps (filterNodes nodes)
        (l.rand.Shuffle (stateAfterCount l r) (filterNodes nodes).length).1 with
    | fault why =>
      rw [sweep_shuffle_fault fm l nodes r why hs] at h
      cases h
    | ok shuffled =>
      obtain ⟨res2, h2, -, -, hcalls⟩ :=
        sweep_listed fm l nodes r shuffled (applySwaps_length _ _ _ hs) hs
      rw [h2] at h
      cases h
      exact hcalls

/-! ## Lemmas on `evict` -/

theorem randCalls_evict_prefix (n seconds : Int) (fx : List Effect) :
    randCalls ([Effect.randIntn n, Effect.log .info "Sleeping %s before evicting %s",
      Effect.sleep seconds] ++ fx) = Effect.randIntn n :: randCalls fx := by
  simp [randCalls]

theorem evictionCalls_append (fx gx : List Effect) :
    evictionCalls (fx ++ gx) = evictionCalls fx ++ evictionCalls gx := by
  induction fx with
  | nil => rfl
  | cons e fx ih => cases e <;> simp [evictionCalls, ih]

theorem parseCalls_append (fx gx : List Effect) :
    parseCalls (fx ++ gx) = parseCalls fx ++ parseCalls gx := by
  induction fx with
  | nil => rfl
  | cons e fx ih => cases e <;> simp [parseCalls, ih]

/-- What every run of `evict` does: it returns, it calls the random source once
(the jitter draw), and its use of the parser and of the eviction API is decided
by the provider ID and the parser. -/
theorem evict_runs {ρ : Type} (fm : Fmt) (toSeconds : Int → Int) (l : Landlord ρ) (azure : Azure)
    (r : ρ) (node : Node) :
    ∃ res, evict fm toSeconds l azure r node = .ok res
      ∧ randCalls res.effects = [Effect.randIntn (intervalSeconds toSeconds l)]
      ∧ (node.providerID = "" →
          res.err = none ∧ evictionCalls res.effects = [] ∧ parseCalls res.effects = [])
      ∧ (node.providerID ≠ "" →
          parseCalls res.effects = [stringsReplaceAll node.providerID "azure://" ""])
      ∧ (∀ id, node.providerID ≠ "" →
          azure.ParseID (stringsReplaceAll node.providerID "azure://" "") = .ok id →
          evictionCalls res.effects = [id])
      ∧ (∀ e, node.providerID ≠ "" →
          azure.ParseID (stringsReplaceAll node.providerID "azure://" "") = .error e →
          evictionCalls res.effects = [] ∧ res.err ≠ none) := by
  by_cases hp : node.providerID = ""
  · refine ⟨_, by simp only [evict, hp, if_true]; rfl, ?_, ?_, ?_, ?_, ?_⟩
    · simp [randCalls]
    · intro _; simp [evictionCalls, parseCalls]
    · intro h; exact absurd hp h
    · intro id h; exact absurd hp h
    · intro e h; exact absurd hp h
  · cases hparse : azure.ParseID (stringsReplaceAll node.providerID "azure://" "") with
    | error e =>
      obtain ⟨w, hw, -⟩ := Wrap_text_s fm "error parsing VM ID %s" "error parsing VM ID ".data
        (by decide) (by decide) e (stringsReplaceAll node.providerID "azure://" "")
      refine ⟨_, by simp only [evict, hp, if_false, hparse, hw]; rfl, ?_, ?_, ?_, ?_, ?_⟩
      · simp [randCalls]
      · intro h; exact absurd h hp
      · intro _; simp [parseCalls]
      · intro id _ h; cases h
      · intro e2 _ _; simp [evictionCalls]
    | ok id =>
      cases hsim : azure.SimulateEviction id with
      | error e =>
        obtain ⟨w, hw, -⟩ := Wrap_text_s fm "error evicting %s" "error evicting ".data
          (by decide) (by decide) e node.name
        refine ⟨_, by simp only [evict, hp, if_false, hparse, hsim, hw]; rfl, ?_, ?_, ?_, ?_, ?_⟩
        · simp [randCalls]
        · intro h; exact absurd h hp
        · intro _; simp [parseCalls]
        · intro id2 _ h; cases h; simp [evictionCalls]
        · intro e2 _ h; cases h
      | ok result =>
        cases hbody : result.body with
        | error e =>
          have hw := Wrap_literal fm "could not read body" e (by decide)
          refine ⟨_, by simp only [evict, hp, if_false, hparse, hsim, readBody, hbody, hw]; rfl,
            ?_, ?_, ?_, ?_, ?_⟩
          · simp [randCalls]
          · intro h; exact absurd h hp
          · intro _; simp [parseCalls]
          · intro id2 _ h; cases h; simp [evictionCalls]
          · intro e2 _ h; cases h
        | ok bytes =>
          refine ⟨_, by simp only [evict, hp, if_false, hparse, hsim, readBody, hbody]; rfl,
            ?_, ?_, ?_, ?_, ?_⟩
          · simp [randCalls]
          · intro h; exact absurd h hp
          · intro _; simp [parseCalls]
          · intro id2 _ h; cases h; simp [evictionCalls]
          · intro e2 _ h; cases h

/-! ## Lemmas on `tick` -/

theorem invocations_append (xs ys : List TickStep) :
    invocations (xs ++ ys) = invocations xs + invocations ys := by
  induction xs with
  | nil => simp [invocations]
  | cons x xs ih => cases x <;> simp [invocations, ih]; omega

theorem invocations_rounds (k : Nat) :
    invocations (List.replicate k [TickStep.select .tickerC, TickStep.invoke]).flatten = k := by
  induction k with
  | zero => rfl
  | succ k ih =>
    rw [List.replicate_succ, List.flatten_cons, invocations_append, ih]
    simp [invocations]
    omega

theorem tickLoop_ticks_done {σ : Type} (t : σ → σ) (k : Nat) (rest : List Select) :
    ∀ (steps : List TickStep) (s : σ),
      tickLoop t (List.replicate k Select.tickerC ++ Select.done :: rest) steps s
        = { returned := true,
            steps := steps
              ++ (List.replicate k [TickStep.select .tickerC, TickStep.invoke]).flatten
              ++ [TickStep.select .done],
            state := t^[k] s } := by
  induction k with
  | zero => intro steps s; simp [tickLoop]
  | succ k ih =>
    intro steps s
    rw [List.replicate_succ, List.cons_append, tickLoop, ih]
    simp [List.replicate_succ]

theorem tickLoop_ticks {σ : Type} (t : σ → σ) (k : Nat) :
    ∀ (steps : List TickStep) (s : σ),
      tickLoop t (List.replicate k Select.tickerC) steps s
        = { returned := false,
            steps := steps
              ++ (List.replicate k [TickStep.select .tickerC, TickStep.invoke]).flatten,
            state := t^[k] s } := by
  induction k with
  | zero => intro steps s; simp [tickLoop]
  | succ k ih =>
    intro steps s
    rw [List.replicate_succ, tickLoop, ih]
    simp [List.replicate_succ]

/-! ## Lemmas on `strings.ReplaceAll` -/

theorem replaceScan_skip (old new : List Char) :
    ∀ (pre s : List Char), replaceScan old new pre.length (pre ++ s) = replaceScan old new 0 s := by
  intro pre
  induction pre with
  | nil => intro s; rfl
  | cons c pre ih =>
    intro s
    show replaceScan old new (pre.length + 1) (c :: (pre ++ s)) = _
    rw [replaceScan, ih]

theorem replaceScan_clean (old new : List Char) :
    ∀ (s : List Char), ¬ old <:+: s → replaceScan old new 0 s = s := by
  intro s
  induction s with
  | nil => intro _; rfl
  | cons c s ih =>
    intro h
    have hp : hasPrefix (c :: s) old = false := by
      cases hpre : hasPrefix (c :: s) old with
      | false => rfl
      | true => exact absurd ((hasPrefix_iff _ _).1 hpre).isInfix h
    have hs : ¬ old <:+: s := fun hin => h (List.infix_cons hin)
    rw [replaceScan]
    simp only [hp, Bool.false_eq_true, if_false, ih hs]

/-- Removing `old` from `old ++ p` gives `p` when `old` does not occur in `p`. -/
theorem replaceAllChars_leading (old p : List Char) (hold : old ≠ [])
    (hclean : ¬ old <:+: p) :
    replaceAllChars (old ++ p) old [] = p := by
  cases old with
  | nil => exact absurd rfl hold
  | cons o os =>
    have hpre : hasPrefix (o :: os ++ p) (o :: os) = true :=
      (hasPrefix_iff _ _).2 (List.prefix_append _ _)
    unfold replaceAllChars
    simp only [List.isEmpty_cons, Bool.false_eq_true, if_false]
    show replaceScan (o :: os) [] 0 (o :: (os ++ p)) = p
    rw [replaceScan]
    have hpre2 : hasPrefix (o :: (os ++ p)) (o :: os) = true := hpre
    simp only [hpre2, if_true, List.nil_append, List.length_cons, Nat.add_sub_cancel]
    rw [replaceScan_skip, replaceScan_clean (o :: os) [] p hclean]

/-- The resource ID that `evict` derives from the provider ID "azure://" ++ p is
p whenever "azure://" does not occur again inside p. -/
theorem resourceID_of_clean_remainder (p : String)
    (hclean : ¬ "azure://".data <:+: p.data) :
    stringsReplaceAll ("azure://" ++ p) "azure://" "" = p := by
  unfold stringsReplaceAll
  rw [String.data_append]
  have hempty : "".data = [] := rfl
  rw [hempty, replaceAllChars_leading "azure://".data p.data (by decide) hclean]

/-- The filter on the sample listing keeps the two plain workers, in order. -/
theorem filterNodes_sample :
    filterNodes sampleNodes
      = [plainNode "worker-1" "azure:///subscriptions/s/vm/1", plainNode "worker-3" ""] := by
  decide

/-- C2: `filterNodes` returns, in input order, exactly the nodes whose name does
not contain "syspool" and that carry no condition of type "VMEventScheduled"
with status True: the result is the input filtered by `Eligible` (so order and
multiplicity are kept), it is a sublist of the input, a node with either
exclusion never occurs in it whatever its other attributes, and a listed node
with neither exclusion does. -/
theorem filterNodes_spec (nodes : List Node) :
    filterNodes nodes = nodes.filter (fun n => decide (Eligible n))
    ∧ (filterNodes nodes).Sublist nodes
    ∧ (∀ n, IsSyspool n ∨ HasScheduledEviction n → n ∉ filterNodes nodes)
    ∧ (∀ n, n ∈ nodes → ¬ IsSyspool n → ¬ HasScheduledEviction n → n ∈ filterNodes nodes) := by
  refine ⟨filterNodes_eq_filter nodes, ?_, ?_, ?_⟩
  · rw [filterNodes_eq_filter]; exact List.filter_sublist _
  · intro n hn hmem
    rw [filterNodes_eq_filter, List.mem_filter] at hmem
    have he : Eligible n := by simpa using hmem.2
    rcases hn with h | h
    · exact he.1 h
    · exact he.2 h
  · intro n hmem h1 h2
    rw [filterNodes_eq_filter, List.mem_filter]
    exact ⟨hmem, by simpa using (⟨h1, h2⟩ : Eligible n)⟩

/-- C4: for `minEvictions < maxEvictions` (both values of type `int`) and a
random source whose `Intn` call returns a value in `[0, n)` for the argument `n`
that `count` passes, `count()` returns `c` with `minEvictions <= c` and
`c < maxEvictions`; with the bounds that `New` sets this is `5 <= c < 20`. -/
theorem count_in_range {ρ : Type} (l : Landlord ρ) (r : ρ)
    (hmin : IsGoInt l.minEvictions) (hmax : IsGoInt l.maxEvictions)
    (hlt : l.minEvictions < l.maxEvictions)
    (hdraw : IntnInRange l.rand r (countBound l)) :
    (l.minEvictions ≤ (count l r).1 ∧ (count l r).1 < l.maxEvictions)
    ∧ (IntnInRange l.rand r (countBound (New l.rand)) →
        5 ≤ (count (New l.rand) r).1 ∧ (count (New l.rand) r).1 < 20) := by
  refine ⟨count_bounds l r hmin hmax hlt hdraw, ?_⟩
  intro hnew
  have h5 : IsGoInt (New l.rand).minEvictions := by show IsGoInt 5; decide
  have h20 : IsGoInt (New l.rand).maxEvictions := by show IsGoInt 20; decide
  have hlt2 : (New l.rand).minEvictions < (New l.rand).maxEvictions := by
    show (5 : Int) < 20; decide
  exact count_bounds (New l.rand) r h5 h20 hlt2 hnew

/-- C4, at the landlord that `New` builds around the counter source in state 7:
`Intn(15)` returns 7 and `count()` returns 12. -/
theorem count_in_range_witness :
    (count (New counterRand) 7).1 = 12
    ∧ ((New counterRand).minEvictions ≤ (count (New counterRand) 7).1
        ∧ (count (New counterRand) 7).1 < (New counterRand).maxEvictions)
    ∧ (5 ≤ (count (New counterRand) 7).1 ∧ (count (New counterRand) 7).1 < 20) :=
  have h := count_in_range (New counterRand) 7 (by decide) (by decide) (by decide) (by decide)
  ⟨by decide, h.1, h.2 (by decide)⟩

/-- C3: when the node listing succeeds and the `Shuffle` call of the sweep only
calls `swap` with indices in `[0, n)`, the sweep returns and the nodes passed to
eviction workers are the first `evictionCount` elements of a permutation of the
eligible list `filterNodes nodes`. The permutation is one of positions
(`tagged` pairs every shuffled element with the position it came from), so the
dispatched positions are pairwise distinct; every dispatched node is an eligible
listed node, and a node that `filterNodes` excludes is never dispatched. -/
theorem sweep_dispatches_prefix_of_permutation {ρ : Type} (fm : Fmt) (l : Landlord ρ)
    (nodes : List Node) (r : ρ)
    (hsh : ShuffleInRange l.rand (stateAfterCount l r) (filterNodes nodes).length) :
    ∃ (tagged : List (Nat × Node)) (res : SweepResult ρ),
      sweep fm l (.ok nodes) r = .ok res
      ∧ tagged.Perm (filterNodes nodes).enum
      ∧ (tagged.map Prod.snd).Perm (filterNodes nodes)
      ∧ spawned res.effects = (tagged.map Prod.snd).take
          (clampCount (count l r).1 (filterNodes nodes).length).toNat
      ∧ ((tagged.take (clampCount (count l r).1 (filterNodes nodes).length).toNat).map
          Prod.fst).Nodup
      ∧ (∀ p ∈ tagged, (filterNodes nodes).get? p.1 = some p.2)
      ∧ (∀ node ∈ spawned res.effects, node ∈ filterNodes nodes ∧ node ∈ nodes ∧ Eligible node)
      ∧ (∀ node, node ∉ filterNodes nodes → node ∉ spawned res.effects) := by
  obtain ⟨tagged, hperm, happly⟩ := shuffle_tagged l nodes r hsh
  have hperm2 : (tagged.map Prod.snd).Perm (filterNodes nodes) := by
    have := hperm.map Prod.snd
    rwa [List.enum_map_snd] at this
  obtain ⟨res, hres, -, hsp, -⟩ :=
    sweep_listed fm l nodes r (tagged.map Prod.snd) hperm2.length_eq happly
  have hmem : ∀ node ∈ spawned res.effects, node ∈ filterNodes nodes := by
    intro node hn
    rw [hsp] at hn
    exact hperm2.mem_iff.1 (List.mem_of_mem_take hn)
  refine ⟨tagged, res, hres, hperm, hperm2, hsp, ?_, ?_, ?_, ?_⟩
  · have hnd : (tagged.map Prod.fst).Nodup := by
      have := hperm.map Prod.fst
      rw [List.enum_map_fst] at this
      exact this.nodup_iff.2 (List.nodup_range _)
    rw [List.map_take]
    exact List.Nodup.sublist (List.take_sublist _ _) hnd
  · intro p hp
    have : (p.1, p.2) ∈ (filterNodes nodes).enum := hperm.mem_iff.1 hp
    rw [List.get?_eq_getElem?]
    exact List.mk_mem_enum_iff_getElem?.1 this
  · intro node hn
    have h1 := hmem node hn
    have h2 := h1
    rw [filterNodes_eq_filter, List.mem_filter] at h2
    exact ⟨h1, h2.1, by simpa using h2.2⟩
  · intro node hnot hn
    exact hnot (hmem node hn)

/-- C3, at the sample listing with the counter source in state 3 and the bounds
of `New`: the two eligible nodes are dispatched, in shuffled order. -/
theorem sweep_dispatches_prefix_of_permutation_witness :
    ShuffleInRange (New counterRand).rand (stateAfterCount (New counterRand) 3)
        (filterNodes sampleNodes).length
    ∧ ∃ (tagged : List (Nat × Node)) (res : SweepResult Nat),
      sweep sampleFmt (New counterRand) (.ok sampleNodes) 3 = .ok res
      ∧ tagged.Perm (filterNodes sampleNodes).enum
      ∧ spawned res.effects = (tagged.map Prod.snd).take
          (clampCount (count (New counterRand) 3).1 (filterNodes sampleNodes).length).toNat :=
  ⟨by decide,
   match sweep_dispatches_prefix_of_permutation sampleFmt (New counterRand) sampleNodes 3
       (by decide) with
   | ⟨tagged, res, h1, h2, _, h4, _⟩ => ⟨tagged, res, h1, h2, h4⟩⟩

/-- C1, as stated, fails for negative bounds: with `minEvictions = -5` and
`maxEvictions = -1` the listing succeeds, `Intn(4)` returns 0 (inside `[0, 4)`)
and `Shuffle` stays in range, the drawn count is -5, two nodes are eligible, the
dispatch loop runs zero times, and zero is neither `min(-5, 2)` nor at most
`maxEvictions`. -/
theorem sweep_dispatch_count_negative_bounds :
    negativeLandlord.minEvictions < negativeLandlord.maxEvictions
    ∧ IntnInRange negativeLandlord.rand 0 (countBound negativeLandlord)
    ∧ ShuffleInRange negativeLandlord.rand (stateAfterCount negativeLandlord 0)
        (filterNodes sampleNodes).length
    ∧ (count negativeLandlord 0).1 = -5
    ∧ (filterNodes sampleNodes).length = 2
    ∧ ∃ res, sweep sampleFmt negativeLandlord (.ok sampleNodes) 0 = .ok res
        ∧ spawned res.effects = []
        ∧ ((spawned res.effects).length : Int)
            ≠ min (count negativeLandlord 0).1 ((filterNodes sampleNodes).length : Int)
        ∧ ¬ ((spawned res.effects).length : Int) ≤ negativeLandlord.maxEvictions := by
  refine ⟨by decide, by decide, by decide, by decide, by decide, _, rfl, by decide, ?_, ?_⟩
  · decide
  · decide

/-- C1, amended: when the node listing succeeds, `0 <= minEvictions <
maxEvictions` (values of type `int`), the `Intn` call of `count` returns a value
in `[0, n)` and the `Shuffle` call only swaps indices in `[0, n)`, the sweep
returns and the number of eviction workers it dispatches equals
`min(c, |eligible|)` for the drawn count `c` and `eligible = filterNodes nodes`;
hence it is at most the number of eligible nodes and at most `maxEvictions`. -/
theorem sweep_dispatch_count {ρ : Type} (fm : Fmt) (l : Landlord ρ) (nodes : List Node) (r : ρ)
    (hmin : 0 ≤ l.minEvictions) (hlt : l.minEvictions < l.maxEvictions)
    (hmax : IsGoInt l.maxEvictions)
    (hdraw : IntnInRange l.rand r (countBound l))
    (hsh : ShuffleInRange l.rand (stateAfterCount l r) (filterNodes nodes).length) :
    ∃ res, sweep fm l (.ok nodes) r = .ok res
      ∧ ((spawned res.effects).length : Int)
          = min (count l r).1 ((filterNodes nodes).length : Int)
      ∧ (spawned res.effects).length ≤ (filterNodes nodes).length
      ∧ ((spawned res.effects).length : Int) ≤ l.maxEvictions := by
  obtain ⟨tagged, hperm, happly⟩ := shuffle_tagged l nodes r hsh
  have hlen : (tagged.map Prod.snd).length = (filterNodes nodes).length := by
    have := (hperm.map Prod.snd).length_eq
    rwa [List.enum_map_snd] at this
  obtain ⟨res, hres, -, hsp, -⟩ := sweep_listed fm l nodes r (tagged.map Prod.snd) hlen happly
  have hminInt : IsGoInt l.minEvictions := by
    unfold IsGoInt at hmax ⊢
    omega
  have hc := count_bounds l r hminInt hmax hlt hdraw
  refine ⟨res, hres, ?_, ?_, ?_⟩
  all_goals
    rw [hsp, List.length_take, hlen]
    unfold clampCount
    split <;> omega

/-- C1 amended, at the sample listing with the bounds of `New` and the counter
source in state 3: the drawn count is 8, two nodes are eligible, two workers are
dispatched. -/
theorem sweep_dispatch_count_witness :
    (count (New counterRand) 3).1 = 8
    ∧ ∃ res, sweep sampleFmt (New counterRand) (.ok sampleNodes) 3 = .ok res
      ∧ ((spawned res.effects).length : Int)
          = min (count (New counterRand) 3).1 ((filterNodes sampleNodes).length : Int)
      ∧ (spawned res.effects).length ≤ (filterNodes sampleNodes).length
      ∧ ((spawned res.effects).length : Int) ≤ (New counterRand).maxEvictions :=
  ⟨by decide,
   sweep_dispatch_count sampleFmt (New counterRand) sampleNodes 3 (by decide) (by decide) (by decide)
     (by decide) (by decide)⟩

/-- C5, as stated, fails when the random source breaks the contract of
`Shuffle`: the listing succeeds, `Shuffle` calls `swap(0, 5)` on the two
eligible nodes, the index expression panics and `sweep` returns nothing, so it
does not return nil. -/
theorem sweep_listing_ok_without_return :
    sweep sampleFmt (New strayRand) (.ok sampleNodes) 0 = .fault "index out of range"
    ∧ ¬ ∃ res, sweep sampleFmt (New strayRand) (.ok sampleNodes) 0 = .ok res ∧ res.err = none := by
  have h : sweep sampleFmt (New strayRand) (.ok sampleNodes) 0 = .fault "index out of range" := by
    apply sweep_shuffle_fault
    decide
  refine ⟨h, ?_⟩
  rintro ⟨res, hres, -⟩
  rw [h] at hres
  cases hres

/-- C5, amended: provided that, when the listing succeeds, the `Shuffle` call
only swaps indices in `[0, n)`, `sweep` returns, and it returns a non-nil error
if and only if `List` fails. When `List` fails with `cause`, the returned error
has message "error listing nodes: <cause>" and unwraps to `cause`, and the
effects stop at the listing: no filter log, no `Shuffle`, no worker. When `List`
succeeds, `sweep` returns nil; the eviction API is not among the arguments of
`sweep`, so no outcome of a worker reaches the result. -/
theorem sweep_error_iff_list_fails {ρ : Type} (fm : Fmt) (l : Landlord ρ)
    (listed : Except GoError (List Node)) (r : ρ)
    (hsh : ∀ nodes, listed = .ok nodes →
      ShuffleInRange l.rand (stateAfterCount l r) (filterNodes nodes).length) :
    ∃ res, sweep fm l listed r = .ok res
      ∧ (res.err ≠ none ↔ ∃ cause, listed = .error cause)
      ∧ (∀ cause, listed = .error cause →
          res.err = some (.wrapError ("error listing nodes: " ++ cause.Error) cause)
          ∧ Unwrap res.err = some cause
          ∧ res.effects = [Effect.log .info
                "Sweeping nodes with min evictions %d and max evictions %d",
              Effect.randIntn (countBound l),
              Effect.log .info "Generated an eviction count of %d", Effect.listNodes]
          ∧ spawned res.effects = []
          ∧ randCalls res.effects = [Effect.randIntn (countBound l)])
      ∧ (∀ nodes, listed = .ok nodes → res.err = none) := by
  cases listed with
  | error cause =>
    refine ⟨_, sweep_list_error fm l cause r, ?_, ?_, ?_⟩
    · simp
    · intro c hc
      cases hc
      refine ⟨rfl, rfl, rfl, rfl, rfl⟩
    · intro nodes h; cases h
  | ok nodes =>
    obtain ⟨tagged, hperm, happly⟩ := shuffle_tagged l nodes r (hsh nodes rfl)
    have hlen : (tagged.map Prod.snd).length = (filterNodes nodes).length := by
      have := (hperm.map Prod.snd).length_eq
      rwa [List.enum_map_snd] at this
    obtain ⟨res, hres, herr, -, -⟩ := sweep_listed fm l nodes r (tagged.map Prod.snd) hlen happly
    refine ⟨res, hres, ?_, ?_, ?_⟩
    · simp [herr]
    · intro c hc; cases hc
    · intro _ _; exact herr

/-- C5 amended, at the sample listing with the counter source: the sweep
returns nil. -/
theorem sweep_error_iff_list_fails_witness :
    ∃ res, sweep sampleFmt (New counterRand) (.ok sampleNodes) 3 = .ok res ∧ res.err = none :=
  match sweep_error_iff_list_fails sampleFmt (New counterRand) (.ok sampleNodes) 3
      (fun nodes h => by cases h; decide) with
  | ⟨res, h1, _, _, h4⟩ => ⟨res, h1, h4 sampleNodes rfl⟩

/-- C6 fails on the code at the provider ID "azure://" ++ "azure://x": the
remainder after the leading scheme prefix is "azure://x", but `evict` hands "x"
to the ID parser, because `strings.ReplaceAll` removes every occurrence of
"azure://" and not only the leading one. -/
theorem evict_strips_inner_scheme :
    ∃ res, evict sampleFmt wholeSeconds (New counterRand) sampleAzure 3 (plainNode "worker-1" ("azure://" ++ "azure://x"))
        = .ok res
      ∧ parseCalls res.effects = ["x"]
      ∧ parseCalls res.effects ≠ ["azure://x"] := by
  obtain ⟨res, hres, -, -, hparse, -⟩ := evict_runs sampleFmt wholeSeconds (New counterRand) sampleAzure 3
    (plainNode "worker-1" ("azure://" ++ "azure://x"))
  have hx : stringsReplaceAll ("azure://" ++ "azure://x") "azure://" "" = "x" := by decide!
  have h := hparse (by decide!)
  have hid : (plainNode "worker-1" ("azure://" ++ "azure://x")).providerID
      = "azure://" ++ "azure://x" := rfl
  rw [hid, hx] at h
  exact ⟨res, hres, h, by rw [h]; decide⟩

/-- C7: `evict` always returns. On a node whose provider ID is the empty string
it returns nil, makes no call to `SimulateEviction` and hands nothing to the ID
parser; on a node whose provider ID is not empty and whose resource ID parses
to `id`, it makes exactly one call to `SimulateEviction`, with `id`. -/
theorem evict_eviction_calls {ρ : Type} (fm : Fmt) (toSeconds : Int → Int) (l : Landlord ρ)
    (azure : Azure) (r : ρ) (node : Node) :
    ∃ res, evict fm toSeconds l azure r node = .ok res
      ∧ (node.providerID = "" →
          res.err = none ∧ evictionCalls res.effects = [] ∧ parseCalls res.effects = [])
      ∧ (∀ id, node.providerID ≠ "" →
          azure.ParseID (stringsReplaceAll node.providerID "azure://" "") = .ok id →
          evictionCalls res.effects = [id] ∧ (evictionCalls res.effects).length = 1) := by
  obtain ⟨res, hres, -, hempty, -, hcall, -⟩ := evict_runs fm toSeconds l azure r node
  refine ⟨res, hres, hempty, ?_⟩
  intro id hne hparse
  have := hcall id hne hparse
  exact ⟨this, by rw [this]; rfl⟩

/-- The two cases of C7 on sample nodes: no provider ID, and a provider ID that
the parser accepts. -/
theorem evict_eviction_calls_samples :
    (∃ res, evict sampleFmt wholeSeconds (New counterRand) sampleAzure 3 (plainNode "worker-3" "") = .ok res
      ∧ res.err = none ∧ evictionCalls res.effects = [] ∧ parseCalls res.effects = [])
    ∧ (∃ res, evict sampleFmt wholeSeconds (New counterRand) sampleAzure 3
          (plainNode "worker-1" "azure:///subscriptions/s/vm/1") = .ok res
      ∧ (evictionCalls res.effects).length = 1
      ∧ parseCalls res.effects = ["/subscriptions/s/vm/1"]) := by
  constructor
  · obtain ⟨res, hres, -, hempty, -⟩ := evict_runs sampleFmt wholeSeconds (New counterRand) sampleAzure 3
      (plainNode "worker-3" "")
    exact ⟨res, hres, hempty rfl⟩
  · obtain ⟨res, hres, -, -, hparse, hcall, -⟩ := evict_runs sampleFmt wholeSeconds (New counterRand) sampleAzure 3
      (plainNode "worker-1" "azure:///subscriptions/s/vm/1")
    have hx : stringsReplaceAll "azure:///subscriptions/s/vm/1" "azure://" ""
        = "/subscriptions/s/vm/1" := by decide!
    have hid : (plainNode "worker-1" "azure:///subscriptions/s/vm/1").providerID
        = "azure:///subscriptions/s/vm/1" := rfl
    have hne : (plainNode "worker-1" "azure:///subscriptions/s/vm/1").providerID ≠ "" := by
      decide!
    have h := hparse hne
    rw [hid, hx] at h
    have hc := hcall _ hne (by rw [hid, hx]; rfl)
    exact ⟨res, hres, by rw [hc]; rfl, h⟩

/-- The run of `Wrap(New("oops"), "%v")` consults no part of `Fmt`: whatever the
renderer, the `%v` of the format consumes the error and the appended `%w` finds
no operand. -/
theorem Wrap_percent_v_no_operand (fm : Fmt) :
    Sprintf fm "%v" [] = .ok "%!v(MISSING)"
    ∧ Wrap fm (errorsNew "oops") "%v" [] = .ok (some (.errorString "oops: %!w(MISSING)")) :=
  ⟨rfl, rfl⟩

/-- C8, as stated, fails for a format that takes more operands than `a` holds:
`Wrap(New("oops"), "%v")` gives the message "oops: %!w(MISSING)" (the `%v` of the
format consumes the error, `%w` finds no operand) and an error that does not
unwrap, while the formatting of "%v" with no operand is "%!v(MISSING)". -/
theorem Wrap_missing_operand :
    Sprintf sampleFmt "%v" [] = .ok "%!v(MISSING)"
    ∧ Wrap sampleFmt (errorsNew "oops") "%v" []
        = .ok (some (.errorString "oops: %!w(MISSING)"))
    ∧ Wrap sampleFmt (errorsNew "oops") "%v" []
        ≠ .ok (some (.wrapError ("%!v(MISSING)" ++ ": " ++ "oops") (.errorString "oops")))
    ∧ Unwrap (some (.errorString "oops: %!w(MISSING)")) = none := by
  obtain ⟨h1, h2⟩ := Wrap_percent_v_no_operand sampleFmt
  refine ⟨h1, h2, ?_, rfl⟩
  rw [h2]
  intro h
  cases h

/-- C8, amended: for every non-nil error `err` and every format `f` and operands
`a` that are regular, that is, such that when `fmt` formats `f` with `a` every
directive has its verb, an operand for every `*` and for the verb (unless its
operand index is bad, or the verb is `%`), no `%w` takes an operand, no operand
index is `len(a)+1` or the empty `[]` at the very end of `f`, and after the last
directive the next operand index is `len(a)` (or, operand indices having been
used, the operand at that index is `err`): `Wrap(err, f, a...)` returns an error
whose message is the formatting of `f` with `a`, followed by ": ", followed by
the message of `err`, and whose `Unwrap` is `err`. And `Wrap(nil, f, a...)`
returns nil for every `f` and `a`. Flags, widths, precisions, operand indices
and all verbs and operand types are covered, whatever they print (`fm`). -/
theorem Wrap_message_and_unwrap (fm : Fmt) (err : GoError) (f : String) (a : List GoValue)
    (hreg : RegularFormat fm err f a) :
    (∃ s : String, Sprintf fm f a = .ok s
      ∧ ∃ w : GoError, Wrap fm (some err) f a = .ok (some w)
        ∧ w.Error = s ++ ": " ++ err.Error
        ∧ Unwrap (some w) = some err)
    ∧ (∀ (g : String) (b : List GoValue), Wrap fm none g b = .ok none) := by
  obtain ⟨hrun, p, hp, harg⟩ := hreg
  exact ⟨⟨p.buf, Sprintf_of_regular fm f a err p hp harg, _,
    Wrap_of_regular fm f a err p hrun hp harg, rfl, rfl⟩, fun _ _ => rfl⟩

/-- C8 amended, at the call of `TestWrapCanUseFormatParameters`:
`Wrap(New("whoops"), "error in %v", 123)`. -/
theorem Wrap_message_and_unwrap_witness :
    RegularFormat sampleFmt (.errorString "whoops") "error in %v" [GoValue.int 123]
    ∧ ∃ s : String, Sprintf sampleFmt "error in %v" [GoValue.int 123] = .ok s
      ∧ ∃ w : GoError,
        Wrap sampleFmt (some (.errorString "whoops")) "error in %v" [GoValue.int 123]
          = .ok (some w)
        ∧ w.Error = s ++ ": " ++ "whoops"
        ∧ Unwrap (some w) = some (.errorString "whoops") :=
  ⟨by decide!,
    (Wrap_message_and_unwrap sampleFmt (.errorString "whoops") "error in %v" [GoValue.int 123]
      (by decide!)).1⟩

/-- Formats and operands that are regular: a verb other than `%v`, `%d`, `%s`;
flags, width and precision; a verb that does not fit its operand; `*` widths;
operand indices, also a bad one and one left open; and an operand index that
leaves the error itself as the next operand. -/
theorem RegularFormat_samples :
    RegularFormat sampleFmt (.errorString "oops") "%x" [GoValue.int 255]
    ∧ RegularFormat sampleFmt (.errorString "oops") "%5d|%-08.3q" [GoValue.int 5, GoValue.str "a"]
    ∧ RegularFormat sampleFmt (.errorString "oops") "%d" [GoValue.str "a"]
    ∧ RegularFormat sampleFmt (.errorString "oops") "%*.*f" [.int 6, .int 2, .other "float64"]
    ∧ RegularFormat sampleFmt (.errorString "oops") "%[2]d %[1]d%[2]v" [.int 1, .int 2]
    ∧ RegularFormat sampleFmt (.errorString "oops") "100%% of %[7]d" []
    ∧ RegularFormat sampleFmt (.errorString "oops") "%[x" []
    ∧ RegularFormat sampleFmt (.errorString "oops") "%[1]d"
        [GoValue.int 5, GoValue.err (.errorString "oops")] := by
  refine ⟨by decide!, by decide!, by decide!, by decide!, by decide!, by decide!, by decide!,
    by decide!⟩

/-- Formats and operands that are not regular: a verb or a `*` without operand,
an operand left over, no verb, `%w` on an operand, the operand index
`len(a)+1`, and the empty operand index at the end of the format. -/
theorem RegularFormat_excluded :
    ¬ RegularFormat sampleFmt (.errorString "oops") "%v" []
    ∧ ¬ RegularFormat sampleFmt (.errorString "oops") "%*d" [GoValue.int 5]
    ∧ ¬ RegularFormat sampleFmt (.errorString "oops") "%d" [GoValue.int 5, GoValue.int 6]
    ∧ ¬ RegularFormat sampleFmt (.errorString "oops") "50%" []
    ∧ ¬ RegularFormat sampleFmt (.errorString "oops") "%w" [GoValue.err (.errorString "x")]
    ∧ ¬ RegularFormat sampleFmt (.errorString "oops") "%w" [GoValue.int 5]
    ∧ ¬ RegularFormat sampleFmt (.errorString "oops") "%[2]d" [GoValue.int 5]
    ∧ ¬ RegularFormat sampleFmt (.errorString "oops") "%[]" [] := by
  refine ⟨by decide!, by decide!, by decide!, by decide!, by decide!, by decide!, by decide!,
    by decide!⟩

/-- The assertions of `errors_test.go`, evaluated on the model; they consult no
part of `Fmt`. -/
theorem errors_test_assertions (fm : Fmt) :
    Wrap fm (errorsNew "oops") "wrap this" []
        = .ok (some (.wrapError "wrap this: oops" (.errorString "oops")))
    ∧ Unwrap (some (.wrapError "wrap this: oops" (.errorString "oops")))
        = some (.errorString "oops")
    ∧ Wrap fm (errorsNew "whoops") "error in %v" [GoValue.int 123]
        = .ok (some (.wrapError "error in 123: whoops" (.errorString "whoops")))
    ∧ Newf fm "oops, error code %v" [GoValue.int 100]
        = .ok (.errorString "oops, error code 100") := by
  exact ⟨rfl, rfl, rfl, rfl⟩

/-- C9: `tick` invokes the tick function once before the first `select`,
whatever that `select` will observe (also when the context is already done),
then once for each ticker signal it receives, and returns at the first `select`
that observes the context as done, without a further invocation: on `k` ticker
signals followed by done it returns after exactly `k + 1` invocations, having
applied the tick function `k + 1` times, and what follows the done is not
looked at. While only ticker signals have arrived it has not returned. -/
theorem tick_invocations {σ : Type} (t : σ → σ) (k : Nat) (rest : List Select) (s : σ) :
    (tick t (List.replicate k Select.tickerC ++ Select.done :: rest) s).returned = true
    ∧ (tick t (List.replicate k Select.tickerC ++ Select.done :: rest) s).steps
        = TickStep.invoke
          :: (List.replicate k [TickStep.select .tickerC, TickStep.invoke]).flatten
          ++ [TickStep.select .done]
    ∧ invocations (tick t (List.replicate k Select.tickerC ++ Select.done :: rest) s).steps
        = k + 1
    ∧ (tick t (List.replicate k Select.tickerC ++ Select.done :: rest) s).state = t^[k + 1] s
    ∧ (tick t (Select.done :: rest) s).steps = [TickStep.invoke, TickStep.select .done]
    ∧ (tick t (List.replicate k Select.tickerC) s).returned = false
    ∧ invocations (tick t (List.replicate k Select.tickerC) s).steps = k + 1 := by
  have hdone := tickLoop_ticks_done t k rest [TickStep.invoke] (t s)
  have hopen := tickLoop_ticks t k [TickStep.invoke] (t s)
  have hinv : invocations (TickStep.invoke
      :: (List.replicate k [TickStep.select .tickerC, TickStep.invoke]).flatten) = k + 1 := by
    rw [invocations, invocations_rounds]
  refine ⟨?_, ?_, ?_, ?_, rfl, ?_, ?_⟩
  · simp [tick, hdone]
  · simp [tick, hdone]
  · simp only [tick, hdone, List.singleton_append, invocations_append, hinv]
    rfl
  · simp only [tick, hdone]
    rw [Function.iterate_succ_apply]
  · simp [tick, hopen]
  · simp only [tick, hopen, List.singleton_append, hinv]

/-- C10 amended, on the sample listing: the sweep returns and has made the
calls `Intn(15)` and `Shuffle(2)`. -/
theorem random_source_calls_sample :
    ∃ res, sweep sampleFmt (New counterRand) (.ok sampleNodes) 3 = .ok res
      ∧ randCalls res.effects = [Effect.randIntn 15, Effect.randShuffle 2] := by
  obtain ⟨tagged, hperm, happly⟩ := shuffle_tagged (New counterRand) sampleNodes 3 (by decide)
  have hlen : (tagged.map Prod.snd).length = (filterNodes sampleNodes).length := by
    have := (hperm.map Prod.snd).length_eq
    rwa [List.enum_map_snd] at this
  obtain ⟨res, hres, -, -, hcalls⟩ :=
    sweep_listed sampleFmt (New counterRand) sampleNodes 3 (tagged.map Prod.snd) hlen happly
  have h15 : countBound (New counterRand) = 15 := by decide
  have h2 : ((filterNodes sampleNodes).length : Int) = 2 := by decide
  rw [h15, h2] at hcalls
  exact ⟨res, hres, hcalls⟩

/-- The sweep does panic when `Shuffle` hands the swap closure an index out of
range: the sample source `strayRand` on the sample listing. -/
theorem sweep_panics_on_stray_shuffle :
    ¬ ShuffleInRange strayRand (stateAfterCount (New strayRand) 3)
        (filterNodes sampleNodes).length
    ∧ ∃ why, sweep sampleFmt (New strayRand) (.ok sampleNodes) 3 = .fault why := by
  have hsh : applySwaps (filterNodes sampleNodes)
      (strayRand.Shuffle (stateAfterCount (New strayRand) 3) (filterNodes sampleNodes).length).1
      = .fault "index out of range" := by decide
  exact ⟨by decide, _, sweep_shuffle_fault sampleFmt (New strayRand) sampleNodes 3 _ hsh⟩


end LandlordModel
